import Mathlib

/-!
# Verification of the Inter-AI Protocol SDK (`src/sdk/src/index.ts`)

This file gives a shallow embedding of the SDK's runtime behaviour in Lean 4
and proves the specification claims about it.

JavaScript runtime values are modelled by the inductive `JsValue`; machine
behaviour such as `typeof`, truthiness, and property access (including the
`TypeError` raised when reading a property of `null` or `undefined`) is
modelled explicitly.  Fallible computations return `Except Unit` (the error
standing for a thrown `TypeError`).

The functions `validate`, `isValid`, `createTask`, the `TaskBuilder` setters
and `build`, `parse` and `toJSON` are translated directly from
`src/sdk/src/index.ts`.  `JSON.parse` / `JSON.stringify` are host-platform
collaborators (the spec leaves them as "the host platform's standard JSON
codec"); they are modelled here by an executable JSON renderer and a
recursive-descent JSON decoder over `JsValue`, with numbers modelled as `Int`.
-/

/-- A JavaScript runtime value: `undefined`, `null`, booleans, numbers
(modelled as `Int`), strings, arrays and plain objects (ordered field lists). -/
inductive JsValue where
  | undefined : JsValue
  | null : JsValue
  | bool : Bool → JsValue
  | num : Int → JsValue
  | str : String → JsValue
  | arr : List JsValue → JsValue
  | obj : List (String × JsValue) → JsValue
deriving Repr

/-- The JavaScript `typeof` operator (note `typeof null` is `"object"`,
and `typeof` of an array is `"object"`). -/
def JsValue.typeof : JsValue → String
  | .undefined => "undefined"
  | .null => "object"
  | .bool _ => "boolean"
  | .num _ => "number"
  | .str _ => "string"
  | .arr _ => "object"
  | .obj _ => "object"

/-- JavaScript truthiness: `undefined`, `null`, `false`, `0` and `""` are
falsy; every object and array is truthy. -/
def JsValue.truthy : JsValue → Bool
  | .undefined => false
  | .null => false
  | .bool b => b
  | .num n => decide (n ≠ 0)
  | .str s => decide (s ≠ "")
  | .arr _ => true
  | .obj _ => true

/-- Recognizes the value `undefined` (the test `v !== undefined` in the
source is `¬ v.isUndef` here). -/
def JsValue.isUndef : JsValue → Bool
  | .undefined => true
  | _ => false

/-- Property lookup on an object's field list: first matching key, else
`undefined` (a missing property reads as `undefined` in JavaScript). -/
def objGet (fs : List (String × JsValue)) (k : String) : JsValue :=
  match fs.lookup k with
  | some v => v
  | none => .undefined

/-- Property access `v.k`.  Reading a property of `null` or `undefined`
throws a `TypeError` (modelled by `Except.error ()`); property access on any
other primitive yields `undefined` for the (non-numeric) keys used by the
SDK; objects use `objGet`. -/
def jsGet : JsValue → String → Except Unit JsValue
  | .undefined, _ => .error ()
  | .null, _ => .error ()
  | .obj fs, k => .ok (objGet fs k)
  | _, _ => .ok .undefined

/-- Total property access for receivers that are never `null`/`undefined`
at the access site (used after the code has already checked truthiness). -/
def fieldOf : JsValue → String → JsValue
  | .obj fs, k => objGet fs k
  | _, _ => .undefined

/-- Strict equality `v === 's'` against a string literal. -/
def isStr (v : JsValue) (s : String) : Bool :=
  match v with
  | .str t => decide (t = s)
  | _ => false

/-- The check `typeof v === 'string' && v` (a non-empty string); its negation
is the SDK's `typeof v !== 'string' || !v`. -/
def nonEmptyStr (v : JsValue) : Bool :=
  match v with
  | .str t => decide (t ≠ "")
  | _ => false

/-- `list.includes(v)` for a list of string literals (strict comparison). -/
def isOneOf (v : JsValue) (ss : List String) : Bool :=
  match v with
  | .str t => ss.contains t
  | _ => false

/-- A validation error, as in `types.ts`: a dotted field path and a message. -/
structure IAPValidationError where
  path : String
  message : String
deriving Repr, DecidableEq

/-- The `delivery` section of `validate` (lines 95-112 of `index.ts`),
applied to the value read from the `delivery` field.  An `undefined` field is
skipped; a value whose `typeof` is not `"object"` yields the `delivery`
error; otherwise `method` is read (throwing a `TypeError` when the value is
`null`), checked against the enum, and the `async` / `email` conditional
requirements are checked. -/
def deliveryErrs (d : JsValue) : Except Unit (List IAPValidationError) :=
  if d.isUndef then .ok []
  else if d.typeof ≠ "object" then .ok [⟨"delivery", "Must be an object"⟩]
  else do
    let m ← jsGet d "method"
    let methodE := if isOneOf m ["sync", "async", "email"] then []
      else [⟨"delivery.method", "Must be \"sync\", \"async\", or \"email\""⟩]
    let webhookE ← if isStr m "async" then do
        let w ← jsGet d "webhook"
        pure (if w.truthy then []
          else [(⟨"delivery.webhook", "Required for async delivery"⟩ : IAPValidationError)])
      else pure []
    let emailE ← if isStr m "email" then do
        let e ← jsGet d "email"
        pure (if e.truthy then []
          else [(⟨"delivery.email", "Required for email delivery"⟩ : IAPValidationError)])
      else pure []
    return methodE ++ webhookE ++ emailE

/-- The `output` section of `validate` (lines 114-125 of `index.ts`). -/
def outputErrs (o : JsValue) : Except Unit (List IAPValidationError) :=
  if o.isUndef then .ok []
  else if o.typeof ≠ "object" then .ok [⟨"output", "Must be an object"⟩]
  else do
    let f ← jsGet o "format"
    return if isOneOf f ["markdown", "json", "yaml", "code", "freeform"] then []
      else [⟨"output.format", "Must be markdown, json, yaml, code, or freeform"⟩]

/-- The `on_failure` section of `validate` (lines 127-138 of `index.ts`). -/
def onFailureErrs (f : JsValue) : Except Unit (List IAPValidationError) :=
  if f.isUndef then .ok []
  else if f.typeof ≠ "object" then .ok [⟨"on_failure", "Must be an object"⟩]
  else do
    let a ← jsGet f "action"
    return if isOneOf a ["return_partial", "retry", "escalate", "abort"] then []
      else [⟨"on_failure.action", "Must be return_partial, retry, escalate, or abort"⟩]

/-- The `sender` section of `validate` (lines 75-83 of `index.ts`): the code
guard is `!t.sender || typeof t.sender !== 'object'`. -/
def senderErrs (s : JsValue) : List IAPValidationError :=
  if ¬ s.truthy ∨ s.typeof ≠ "object" then [⟨"sender", "Required object"⟩]
  else if nonEmptyStr (fieldOf s "agent_id") then []
  else [⟨"sender.agent_id", "Required string"⟩]

/-- The `task` section of `validate` (lines 85-93 of `index.ts`). -/
def taskErrs (t : JsValue) : List IAPValidationError :=
  if ¬ t.truthy ∨ t.typeof ≠ "object" then [⟨"task", "Required object"⟩]
  else if nonEmptyStr (fieldOf t "intent") then []
  else [⟨"task.intent", "Required string"⟩]

/-- The `iap_version` check of `validate` (lines 65-68 of `index.ts`). -/
def versionCheckErrs (v : JsValue) : List IAPValidationError :=
  if isStr v "0.2" then [] else [⟨"iap_version", "Must be \"0.2\""⟩]

/-- The `task_id` check of `validate` (lines 70-73 of `index.ts`). -/
def taskIdCheckErrs (v : JsValue) : List IAPValidationError :=
  if nonEmptyStr v then [] else [⟨"task_id", "Required string"⟩]

/-- `validate` from `index.ts` lines 55-141.  The top-level guard is
`!task || typeof task !== 'object'`; after it, each check appends its errors
in source order.  The result is `Except.error ()` exactly when the JavaScript
function would throw a `TypeError` (reading `method` / `format` / `action`
of a `null` optional field). -/
def validate (task : JsValue) : Except Unit (List IAPValidationError) :=
  if ¬ task.truthy ∨ task.typeof ≠ "object" then
    .ok [⟨"", "Task must be an object"⟩]
  else do
    let versionE := versionCheckErrs (fieldOf task "iap_version")
    let taskIdE := taskIdCheckErrs (fieldOf task "task_id")
    let senderE := senderErrs (fieldOf task "sender")
    let taskE := taskErrs (fieldOf task "task")
    let deliveryE ← deliveryErrs (fieldOf task "delivery")
    let outputE ← outputErrs (fieldOf task "output")
    let onFailureE ← onFailureErrs (fieldOf task "on_failure")
    return versionE ++ taskIdE ++ senderE ++ taskE ++ deliveryE ++ outputE ++ onFailureE

/-- `isValid` from `index.ts` lines 146-148: `validate(task).length === 0`.
It propagates any `TypeError` thrown by `validate`. -/
def isValid (task : JsValue) : Except Unit Bool := do
  let errs ← validate task
  return errs.length == 0

/-! ## The typed layer: `types.ts` records, `createTask` and `TaskBuilder`

The structures below model the *runtime* shape of the values the builder
manipulates.  In `types.ts` the fields `IAPTask.intent` and
`IAPOutput.format` are declared required, but the builder's spread-based
setters (such as `...this._task` with a `details` override, cast by
`as IAPTask`) can produce runtime objects lacking them, so they are
`Option`s here; a key that is absent and a key set to `undefined` are both
`none`. -/

/-- `IAPSender` from `types.ts`. -/
structure IAPSender where
  agent_id : String
  email : Option String := none
  framework : Option String := none
  callback : Option String := none
deriving Repr, DecidableEq

/-- `IAPTask` from `types.ts`, at runtime: `intent` may be missing in the
partial objects built by the spread-based setters. -/
structure IAPTask where
  intent : Option String := none
  details : Option String := none
  context : Option String := none
  context_ref : Option String := none
deriving Repr, DecidableEq

/-- `IAPDelivery` from `types.ts`. -/
structure IAPDelivery where
  method : String
  webhook : Option String := none
  email : Option String := none
  status_endpoint : Option String := none
deriving Repr, DecidableEq

/-- `IAPConstraints` from `types.ts`. -/
structure IAPConstraints where
  time_limit : Option String := none
  token_budget : Option Int := none
  tools_allowed : Option (List String) := none
  tools_denied : Option (List String) := none
  scope : Option String := none
  requires_capabilities : Option (List String) := none
deriving Repr, DecidableEq

/-- `IAPOutput` from `types.ts`, at runtime: `format` may be missing in the
partial object built by `deliverTo` before `outputFormat` is called. -/
structure IAPOutput where
  format : Option String := none
  schema : Option String := none
  deliver_to : Option String := none
deriving Repr, DecidableEq

/-- `IAPOnFailure` from `types.ts`. -/
structure IAPOnFailure where
  action : String
  max_retries : Option Int := none
  escalate_to : Option String := none
deriving Repr, DecidableEq

/-- `IAPTaskHandoff` from `types.ts`. -/
structure IAPTaskHandoff where
  iap_version : String
  task_id : String
  sender : IAPSender
  delivery : Option IAPDelivery := none
  task : IAPTask
  constraints : Option IAPConstraints := none
  success_criteria : Option (List String) := none
  output : Option IAPOutput := none
  on_failure : Option IAPOnFailure := none
deriving Repr, DecidableEq

/-- `createTask` from `index.ts` lines 153-174.  The ID generator is the
injectable collaborator `genId` (the source computes
`options.task_id ?? generateTaskId()` for the `task_id` field). -/
def createTask (genId : String) (task_id : Option String) (sender : IAPSender)
    (delivery : Option IAPDelivery) (task : IAPTask)
    (constraints : Option IAPConstraints) (success_criteria : Option (List String))
    (output : Option IAPOutput) (on_failure : Option IAPOnFailure) : IAPTaskHandoff :=
  { iap_version := "0.2"
    task_id := task_id.getD genId
    sender := sender
    delivery := delivery
    task := task
    constraints := constraints
    success_criteria := success_criteria
    output := output
    on_failure := on_failure }

/-- The mutable state of a `TaskBuilder` (`index.ts` lines 205-213): every
private field starts out `undefined`. -/
structure TaskBuilder where
  _taskId : Option String := none
  _sender : Option IAPSender := none
  _delivery : Option IAPDelivery := none
  _task : Option IAPTask := none
  _constraints : Option IAPConstraints := none
  _successCriteria : Option (List String) := none
  _output : Option IAPOutput := none
  _onFailure : Option IAPOnFailure := none
deriving Repr, DecidableEq

/-- `new TaskBuilder()`. -/
def TaskBuilder.new : TaskBuilder := {}

/-- The empty runtime `IAPTask`, i.e. the result of spreading `undefined`. -/
def emptyTask : IAPTask := {}

/-- The empty runtime `IAPConstraints` (spread of `undefined`). -/
def emptyConstraints : IAPConstraints := {}

/-- The empty runtime `IAPOutput` (spread of `undefined`). -/
def emptyOutput : IAPOutput := {}

/-- `taskId(id)`. -/
def TaskBuilder.taskId (b : TaskBuilder) (id : String) : TaskBuilder :=
  { b with _taskId := some id }

/-- `from(agentId, email?, framework?)`: replaces the sender wholesale. -/
def TaskBuilder.from (b : TaskBuilder) (agentId : String)
    (email : Option String) (framework : Option String) : TaskBuilder :=
  { b with _sender := some { agent_id := agentId, email := email, framework := framework } }

/-- `sender(sender)`: replaces the sender wholesale. -/
def TaskBuilder.sender (b : TaskBuilder) (s : IAPSender) : TaskBuilder :=
  { b with _sender := some s }

/-- `intent(intent)`: spread of the previous `_task` with `intent` set. -/
def TaskBuilder.intent (b : TaskBuilder) (intent : String) : TaskBuilder :=
  { b with _task := some { b._task.getD emptyTask with intent := some intent } }

/-- `details(details)`: spread of the previous `_task` with `details` set. -/
def TaskBuilder.details (b : TaskBuilder) (details : String) : TaskBuilder :=
  { b with _task := some { b._task.getD emptyTask with details := some details } }

/-- `context(context)`: spread of the previous `_task` with `context` set. -/
def TaskBuilder.context (b : TaskBuilder) (context : String) : TaskBuilder :=
  { b with _task := some { b._task.getD emptyTask with context := some context } }

/-- `contextRef(ref)`: spread of the previous `_task` with `context_ref` set. -/
def TaskBuilder.contextRef (b : TaskBuilder) (ref : String) : TaskBuilder :=
  { b with _task := some { b._task.getD emptyTask with context_ref := some ref } }

/-- `task(task)`: replaces the task sub-object wholesale. -/
def TaskBuilder.task (b : TaskBuilder) (t : IAPTask) : TaskBuilder :=
  { b with _task := some t }

/-- `syncDelivery()`: replaces the delivery sub-object wholesale. -/
def TaskBuilder.syncDelivery (b : TaskBuilder) : TaskBuilder :=
  { b with _delivery := some { method := "sync" } }

/-- `asyncDelivery(webhook, statusEndpoint?)`: replaces the delivery
sub-object wholesale. -/
def TaskBuilder.asyncDelivery (b : TaskBuilder) (webhook : String)
    (statusEndpoint : Option String) : TaskBuilder :=
  let d : IAPDelivery := { method := "async", webhook := some webhook, status_endpoint := statusEndpoint }
  { b with _delivery := some d }

/-- `emailDelivery(email)`: replaces the delivery sub-object wholesale. -/
def TaskBuilder.emailDelivery (b : TaskBuilder) (email : String) : TaskBuilder :=
  { b with _delivery := some { method := "email", email := some email } }

/-- `delivery(delivery)`: replaces the delivery sub-object wholesale. -/
def TaskBuilder.delivery (b : TaskBuilder) (d : IAPDelivery) : TaskBuilder :=
  { b with _delivery := some d }

/-- `timeLimit(limit)`: spread of the previous `_constraints` with
`time_limit` set. -/
def TaskBuilder.timeLimit (b : TaskBuilder) (limit : String) : TaskBuilder :=
  let c := { b._constraints.getD emptyConstraints with time_limit := some limit }
  { b with _constraints := some c }

/-- `tokenBudget(budget)`: merge-on-write on `_constraints`. -/
def TaskBuilder.tokenBudget (b : TaskBuilder) (budget : Int) : TaskBuilder :=
  let c := { b._constraints.getD emptyConstraints with token_budget := some budget }
  { b with _constraints := some c }

/-- `toolsAllowed(tools)`: merge-on-write on `_constraints`. -/
def TaskBuilder.toolsAllowed (b : TaskBuilder) (tools : List String) : TaskBuilder :=
  let c := { b._constraints.getD emptyConstraints with tools_allowed := some tools }
  { b with _constraints := some c }

/-- `toolsDenied(tools)`: merge-on-write on `_constraints`. -/
def TaskBuilder.toolsDenied (b : TaskBuilder) (tools : List String) : TaskBuilder :=
  let c := { b._constraints.getD emptyConstraints with tools_denied := some tools }
  { b with _constraints := some c }

/-- `scope(scope)`: merge-on-write on `_constraints`. -/
def TaskBuilder.scope (b : TaskBuilder) (scope : String) : TaskBuilder :=
  let c := { b._constraints.getD emptyConstraints with scope := some scope }
  { b with _constraints := some c }

/-- `requiresCapabilities(caps)`: merge-on-write on `_constraints`. -/
def TaskBuilder.requiresCapabilities (b : TaskBuilder) (caps : List String) : TaskBuilder :=
  let c := { b._constraints.getD emptyConstraints with requires_capabilities := some caps }
  { b with _constraints := some c }

/-- `constraints(constraints)`: replaces the constraints sub-object wholesale. -/
def TaskBuilder.constraints (b : TaskBuilder) (c : IAPConstraints) : TaskBuilder :=
  { b with _constraints := some c }

/-- `successCriteria(criteria)`: replaces the list wholesale. -/
def TaskBuilder.successCriteria (b : TaskBuilder) (criteria : List String) : TaskBuilder :=
  { b with _successCriteria := some criteria }

/-- `addCriterion(criterion)`: appends to `this._successCriteria ?? []`. -/
def TaskBuilder.addCriterion (b : TaskBuilder) (criterion : String) : TaskBuilder :=
  { b with _successCriteria := some (b._successCriteria.getD [] ++ [criterion]) }

/-- `outputFormat(format, schema?)`: sets `_output` to an object with only
`format` and `schema` — NOT a spread: the previous `_output` (in particular
`deliver_to`) is discarded. -/
def TaskBuilder.outputFormat (b : TaskBuilder) (format : String)
    (schema : Option String) : TaskBuilder :=
  { b with _output := some { format := some format, schema := schema } }

/-- `deliverTo(location)`: spread of the previous `_output` with
`deliver_to` set. -/
def TaskBuilder.deliverTo (b : TaskBuilder) (location : String) : TaskBuilder :=
  { b with _output := some { b._output.getD emptyOutput with deliver_to := some location } }

/-- `output(output)`: replaces the output sub-object wholesale. -/
def TaskBuilder.output (b : TaskBuilder) (o : IAPOutput) : TaskBuilder :=
  { b with _output := some o }

/-- `onFailure(action, options?)`: builds the failure policy from the
arguments (spread of the options object). -/
def TaskBuilder.onFailure (b : TaskBuilder) (action : String)
    (max_retries : Option Int) (escalate_to : Option String) : TaskBuilder :=
  let p : IAPOnFailure := { action := action, max_retries := max_retries, escalate_to := escalate_to }
  { b with _onFailure := some p }

/-- The JavaScript truthiness test on the optional chain
`this._task?.intent`: true exactly when the accumulated task exists, has an
`intent`, and that intent is a non-empty string. -/
def TaskBuilder.intentTruthy (b : TaskBuilder) : Bool :=
  match b._task.bind (fun t => t.intent) with
  | some s => decide (s ≠ "")
  | none => false

/-- `build()` from `index.ts` lines 366-384: `!this._sender` throws the
sender precondition, `!this._task?.intent` throws the intent precondition,
otherwise the accumulated state is handed to `createTask`.  `genId` is the
injected ID generator used when no `taskId` was set. -/
def TaskBuilder.build (b : TaskBuilder) (genId : String) : Except String IAPTaskHandoff :=
  match b._sender with
  | none => .error "Sender is required - call from() or sender()"
  | some s =>
    if ¬ b.intentTruthy then
      .error "Task intent is required - call intent() or task()"
    else
      .ok (createTask genId b._taskId s b._delivery (b._task.getD emptyTask)
        b._constraints b._successCriteria b._output b._onFailure)

/-! ## The JSON codec

`toJSON` is `JSON.stringify(task, null, pretty ? 2 : undefined)` and `parse`
decodes with `JSON.parse` before validating.  Both are host-platform
collaborators; they are modelled by an executable renderer and decoder over
`JsValue`.  `JSON.stringify` skips object entries whose value is `undefined`
and writes `null` for `undefined` array elements; `strip` computes the value
that decoding the rendered text gives back. -/

/-- An opening brace character (value 123). -/
def lbraceChar : Char := Char.ofNat 123

/-- A closing brace character (value 125). -/
def rbraceChar : Char := Char.ofNat 125

/-- JSON whitespace. -/
def isWsChar (c : Char) : Bool := c = ' ' ∨ c = '\n' ∨ c = '\t' ∨ c = '\r'

/-- Drop leading JSON whitespace. -/
def skipWs : List Char → List Char
  | [] => []
  | c :: rest => if isWsChar c then skipWs rest else c :: rest

/-- The decimal digit character for `n < 10`. -/
def digitChar (n : Nat) : Char := Char.ofNat (48 + n)

/-- Decimal digit test. -/
def isDigitChar (c : Char) : Bool := 48 ≤ c.toNat ∧ c.toNat ≤ 57

/-- Decimal rendering worker: peels least significant digits onto `acc`;
`fuel` (any bound above the value) makes the recursion structural. -/
def natDigitsAux : Nat → Nat → List Char → List Char
  | 0, _, acc => acc
  | fuel + 1, n, acc =>
    if n < 10 then digitChar n :: acc
    else natDigitsAux fuel (n / 10) (digitChar (n % 10) :: acc)

/-- Decimal rendering of a natural number, most significant digit first. -/
def natDigits (n : Nat) : List Char := natDigitsAux (n + 1) n []

/-- Rendering of an integer as JavaScript prints it. -/
def renderInt (n : Int) : List Char :=
  if n < 0 then '-' :: natDigits n.natAbs else natDigits n.toNat

/-- Lower-case hexadecimal digit character for `n < 16`. -/
def hexDigitChar (n : Nat) : Char :=
  if n < 10 then Char.ofNat (48 + n) else Char.ofNat (87 + n)

/-- The escape sequence `JSON.stringify` uses for one string character:
quote and backslash get a backslash escape, the common control characters
get their short escapes, other control characters get `\u00xy`, and
everything else is emitted raw. -/
def escapeChar (c : Char) : List Char :=
  if c = '"' then ['\\', '"']
  else if c = '\\' then ['\\', '\\']
  else if c = '\x08' then ['\\', 'b']
  else if c = '\t' then ['\\', 't']
  else if c = '\n' then ['\\', 'n']
  else if c = '\x0c' then ['\\', 'f']
  else if c = '\r' then ['\\', 'r']
  else if c.toNat < 32 then ['\\', 'u', '0', '0', hexDigitChar (c.toNat / 16), hexDigitChar (c.toNat % 16)]
  else [c]

/-- The escaped body of a JSON string. -/
def escBody : List Char → List Char
  | [] => []
  | c :: rest => escapeChar c ++ escBody rest

/-- A quoted JSON string literal. -/
def renderStr (s : String) : List Char := '"' :: escBody s.data ++ ['"']

/-- `2 * n` spaces: the indentation of nesting depth `n` at indent width 2. -/
def indentChars (n : Nat) : List Char := List.replicate (2 * n) ' '

/-- The separator between the entries of an object or array: in pretty mode
a comma, a newline and the indentation of the entries (depth `de`). -/
def entrySep (pretty : Bool) (de : Nat) : List Char :=
  if pretty then ',' :: '\n' :: indentChars de else [',']

/-- The separator between a key and a value: `": "` pretty, `":"` compact. -/
def colonSep (pretty : Bool) : List Char :=
  if pretty then [':', ' '] else [':']

/-- The characters of the literal `null`. -/
def nullChars : List Char := ['n', 'u', 'l', 'l']

mutual
/-- `JSON.stringify` of one value at nesting depth `d` (the closing bracket
of a composite is indented at depth `d`, its entries at `d + 1`).  Returns
`none` exactly for `undefined`, which `JSON.stringify` cannot represent. -/
def renderVal (pretty : Bool) (d : Nat) : JsValue → Option (List Char)
  | .undefined => none
  | .null => some nullChars
  | .bool true => some ['t', 'r', 'u', 'e']
  | .bool false => some ['f', 'a', 'l', 's', 'e']
  | .num n => some (renderInt n)
  | .str s => some (renderStr s)
  | .arr xs =>
    match renderItemsJoined pretty (d + 1) xs with
    | none => some ['[', ']']
    | some body =>
      if pretty then
        some ('[' :: '\n' :: indentChars (d + 1) ++ body ++ '\n' :: indentChars d ++ [']'])
      else
        some ('[' :: body ++ [']'])
  | .obj fs =>
    match renderFieldsJoined pretty (d + 1) fs with
    | none => some [lbraceChar, rbraceChar]
    | some body =>
      if pretty then
        some (lbraceChar :: '\n' :: indentChars (d + 1) ++ body ++ '\n' :: indentChars d ++ [rbraceChar])
      else
        some (lbraceChar :: body ++ [rbraceChar])

/-- The joined entry text of an array at entry depth `de` (`none` when the
array is empty); an `undefined` element is written as `null`. -/
def renderItemsJoined (pretty : Bool) (de : Nat) : List JsValue → Option (List Char)
  | [] => none
  | x :: rest =>
    let cs := match renderVal pretty de x with
      | some cs => cs
      | none => nullChars
    match renderItemsJoined pretty de rest with
    | none => some cs
    | some more => some (cs ++ entrySep pretty de ++ more)

/-- The joined entry text of an object at entry depth `de` (`none` when no
entry survives); an entry whose value is `undefined` is skipped. -/
def renderFieldsJoined (pretty : Bool) (de : Nat) : List (String × JsValue) → Option (List Char)
  | [] => none
  | (k, v) :: rest =>
    match renderVal pretty de v with
    | none => renderFieldsJoined pretty de rest
    | some cs =>
      let entry := renderStr k ++ colonSep pretty ++ cs
      match renderFieldsJoined pretty de rest with
      | none => some entry
      | some more => some (entry ++ entrySep pretty de ++ more)
end

mutual
/-- The value `JSON.parse(JSON.stringify(v))` gives back: object entries
with `undefined` values disappear, `undefined` array elements become
`null`. -/
def strip : JsValue → JsValue
  | .arr xs => .arr (stripItems xs)
  | .obj fs => .obj (stripFields fs)
  | v => v

/-- `strip` on array elements. -/
def stripItems : List JsValue → List JsValue
  | [] => []
  | x :: rest => (if x.isUndef then .null else strip x) :: stripItems rest

/-- `strip` on object entries. -/
def stripFields : List (String × JsValue) → List (String × JsValue)
  | [] => []
  | (k, v) :: rest =>
    if v.isUndef then stripFields rest else (k, strip v) :: stripFields rest
end

mutual
/-- `true` when the value contains no `undefined` array element (anywhere):
exactly the values whose JSON round trip is observation-preserving. -/
def jsonSafe : JsValue → Bool
  | .arr xs => safeItems xs
  | .obj fs => safeFields fs
  | _ => true

/-- `jsonSafe` on array elements: `undefined` elements are unsafe. -/
def safeItems : List JsValue → Bool
  | [] => true
  | x :: rest => !x.isUndef && jsonSafe x && safeItems rest

/-- `jsonSafe` on object entries (an `undefined` value is fine here: the
entry is simply dropped by `JSON.stringify`). -/
def safeFields : List (String × JsValue) → Bool
  | [] => true
  | (_, v) :: rest => jsonSafe v && safeFields rest
end

mutual
/-- Recursively: every object in the value has pairwise distinct keys, as
the objects of a real JavaScript runtime do. -/
def wfKeys : JsValue → Bool
  | .arr xs => wfItems xs
  | .obj fs => decide ((fs.map Prod.fst).Nodup) && wfFields fs
  | _ => true

/-- `wfKeys` on array elements. -/
def wfItems : List JsValue → Bool
  | [] => true
  | x :: rest => wfKeys x && wfItems rest

/-- `wfKeys` on object entries. -/
def wfFields : List (String × JsValue) → Bool
  | [] => true
  | (_, v) :: rest => wfKeys v && wfFields rest
end

mutual
/-- Fuel bound for the decoder: the number of parse steps the rendered form
of a value takes. -/
def psize : JsValue → Nat
  | .arr xs => 1 + psizeItems xs
  | .obj fs => 1 + psizeFields fs
  | _ => 1

/-- `psize` over array entries. -/
def psizeItems : List JsValue → Nat
  | [] => 0
  | x :: rest => 1 + psize x + psizeItems rest

/-- `psize` over object entries (entries that `JSON.stringify` skips cost
nothing). -/
def psizeFields : List (String × JsValue) → Nat
  | [] => 0
  | (_, v) :: rest => if v.isUndef then psizeFields rest else 1 + psize v + psizeFields rest
end

/-- One hexadecimal digit. -/
def parseHexDigit (c : Char) : Option Nat :=
  if 48 ≤ c.toNat ∧ c.toNat ≤ 57 then some (c.toNat - 48)
  else if 97 ≤ c.toNat ∧ c.toNat ≤ 102 then some (c.toNat - 87)
  else if 65 ≤ c.toNat ∧ c.toNat ≤ 70 then some (c.toNat - 55)
  else none

/-- The four-hex-digit payload of a `\u` escape. -/
def unescHex : List Char → Option (Char × List Char)
  | h1 :: h2 :: h3 :: h4 :: rest3 =>
    match parseHexDigit h1, parseHexDigit h2, parseHexDigit h3, parseHexDigit h4 with
    | some a, some b, some c2, some d =>
      some (Char.ofNat (4096 * a + 256 * b + 16 * c2 + d), rest3)
    | _, _, _, _ => none
  | _ => none

/-- One escape sequence after the backslash: the escaped character and the
remaining input. -/
def unescape1 : List Char → Option (Char × List Char)
  | [] => none
  | e :: rest2 =>
    if e = '"' ∨ e = '\\' ∨ e = '/' then some (e, rest2)
    else if e = 'b' then some ('\x08', rest2)
    else if e = 'f' then some ('\x0c', rest2)
    else if e = 'n' then some ('\n', rest2)
    else if e = 'r' then some ('\r', rest2)
    else if e = 't' then some ('\t', rest2)
    else if e = 'u' then unescHex rest2
    else none

/-- The body of a JSON string literal after the opening quote: collects
characters (unescaping) until the closing quote; raw control characters are
rejected as JSON requires.  `fuel` (any bound above the input length) makes
the recursion structural. -/
def parseStrBody : Nat → List Char → List Char → Option (List Char × List Char)
  | 0, _, _ => none
  | fuel + 1, acc, input =>
    match input with
    | [] => none
    | c :: rest =>
      if c = '"' then some (acc.reverse, rest)
      else if c = '\\' then
        match unescape1 rest with
        | some (u, rest2) => parseStrBody fuel (u :: acc) rest2
        | none => none
      else if c.toNat < 32 then none
      else parseStrBody fuel (c :: acc) rest

/-- The numeric value of a digit string. -/
def digitsVal (ds : List Char) : Nat :=
  ds.foldl (fun a c => 10 * a + (c.toNat - 48)) 0

/-- A JSON number (this model covers the integers, which is all the renderer
emits); consumes the optional sign and the digits. -/
def parseNum : List Char → Option (JsValue × List Char)
  | [] => none
  | c :: rest =>
    if c = '-' then
      let ds := rest.takeWhile isDigitChar
      if ds.isEmpty then none
      else some (.num (-(digitsVal ds : Int)), rest.dropWhile isDigitChar)
    else
      let ds := (c :: rest).takeWhile isDigitChar
      if ds.isEmpty then none
      else some (.num (digitsVal ds), (c :: rest).dropWhile isDigitChar)

mutual
/-- A JSON value: skips leading whitespace, then dispatches on the first
character.  `fuel` bounds the recursion depth. -/
def parseVal : Nat → List Char → Option (JsValue × List Char)
  | 0, _ => none
  | fuel + 1, input =>
    match skipWs input with
    | [] => none
    | c :: rest =>
      if c = '"' then
        match parseStrBody (rest.length + 1) [] rest with
        | some (cs, r) => some (.str (String.mk cs), r)
        | none => none
      else if c = lbraceChar then
        match skipWs rest with
        | c2 :: r2 =>
          if c2 = rbraceChar then some (.obj [], r2)
          else
            match parseObjItems fuel (c2 :: r2) with
            | some (fs, r) => some (.obj fs, r)
            | none => none
        | [] => none
      else if c = '[' then
        match skipWs rest with
        | c2 :: r2 =>
          if c2 = ']' then some (.arr [], r2)
          else
            match parseArrItems fuel (c2 :: r2) with
            | some (vs, r) => some (.arr vs, r)
            | none => none
        | [] => none
      else if c = 't' then
        match rest with
        | a :: b :: c3 :: r => if a = 'r' ∧ b = 'u' ∧ c3 = 'e' then some (.bool true, r) else none
        | _ => none
      else if c = 'f' then
        match rest with
        | a :: b :: c3 :: d :: r =>
          if a = 'a' ∧ b = 'l' ∧ c3 = 's' ∧ d = 'e' then some (.bool false, r) else none
        | _ => none
      else if c = 'n' then
        match rest with
        | a :: b :: c3 :: r => if a = 'u' ∧ b = 'l' ∧ c3 = 'l' then some (.null, r) else none
        | _ => none
      else parseNum (c :: rest)

/-- The entries of a non-empty JSON object, starting at the first key's
opening quote; stops after consuming the closing brace. -/
def parseObjItems : Nat → List Char → Option (List (String × JsValue) × List Char)
  | 0, _ => none
  | fuel + 1, input =>
    match input with
    | [] => none
    | c :: rest =>
      if c = '"' then
        match parseStrBody (rest.length + 1) [] rest with
        | some (k, r1) =>
          match skipWs r1 with
          | c2 :: r2 =>
            if c2 = ':' then
              match parseVal fuel r2 with
              | some (v, r3) =>
                match skipWs r3 with
                | c4 :: r4 =>
                  if c4 = ',' then
                    match parseObjItems fuel (skipWs r4) with
                    | some (fs, r5) => some ((String.mk k, v) :: fs, r5)
                    | none => none
                  else if c4 = rbraceChar then some ([(String.mk k, v)], r4)
                  else none
                | [] => none
              | none => none
            else none
          | [] => none
        | none => none
      else none

/-- The elements of a non-empty JSON array, starting at the first element;
stops after consuming the closing bracket. -/
def parseArrItems : Nat → List Char → Option (List JsValue × List Char)
  | 0, _ => none
  | fuel + 1, input =>
    match parseVal fuel input with
    | some (v, r1) =>
      match skipWs r1 with
      | c :: r2 =>
        if c = ',' then
          match parseArrItems fuel r2 with
          | some (vs, r) => some (v :: vs, r)
          | none => none
        else if c = ']' then some ([v], r2)
        else none
      | [] => none
    | none => none
end

/-- `JSON.parse`: one JSON value covering the whole text (trailing
whitespace allowed), or failure. -/
def jsonDecode (s : String) : Option JsValue :=
  match parseVal (s.data.length + 1) s.data with
  | some (v, rest) => if (skipWs rest).isEmpty then some v else none
  | none => none

/-- The message of the error `parse` throws when `JSON.parse` fails. -/
def jsonOnlyMsg : String :=
  "Only JSON format is supported in this version. For YAML, use a YAML parser first."

/-- The faults `parse` can raise: the fixed not-JSON message, the aggregate
schema message, or a `TypeError` escaping from `validate`. -/
inductive ParseFault where
  | notJson (msg : String)
  | invalidTask (msg : String)
  | typeError
deriving Repr, DecidableEq

/-- The aggregate message `Invalid IAP task: path: message, path: message`. -/
def aggregateMsg (errs : List IAPValidationError) : String :=
  "Invalid IAP task: " ++ String.intercalate ", " (errs.map (fun e => e.path ++ ": " ++ e.message))

/-- `parse` from `index.ts` lines 391-410: decode as JSON (anything else
throws the fixed JSON-only message), validate, throw the aggregate message
when errors exist, otherwise return the decoded value unchanged.  A
`TypeError` thrown inside `validate` escapes as `ParseFault.typeError`. -/
def parse (input : String) : Except ParseFault JsValue :=
  match jsonDecode input with
  | none => .error (.notJson jsonOnlyMsg)
  | some parsed =>
    match validate parsed with
    | .error _ => .error .typeError
    | .ok errs =>
      if errs.length > 0 then .error (.invalidTask (aggregateMsg errs))
      else .ok parsed

/-- `toJSON` from `index.ts` lines 415-417:
`JSON.stringify(task, null, pretty ? 2 : undefined)` (the result is
`undefined`, i.e. `none`, only when the whole value is `undefined`). -/
def toJSON (task : JsValue) (pretty : Bool := true) : Option String :=
  (renderVal pretty 0 task).map String.mk

/-- A path into a JavaScript value: object keys and array indices. -/
inductive PathStep where
  | key (k : String)
  | idx (i : Nat)
deriving Repr, DecidableEq

/-- Reading a value along a path; a missing field or index reads as
`undefined`, and any step into a non-composite reads as `undefined`. -/
def pathGet : JsValue → List PathStep → JsValue
  | v, [] => v
  | .obj fs, .key k :: p => pathGet (objGet fs k) p
  | .arr xs, .idx i :: p => pathGet (xs.getD i .undefined) p
  | _, _ :: _ => .undefined

/-- What a single path observation sees: a primitive value, an array node
with its length, or an object node. -/
inductive JsObs where
  | prim (v : JsValue)
  | arrNode (len : Nat)
  | objNode
deriving Repr

/-- The observation of one value: composites are seen as nodes (arrays with
their length), everything else as itself. -/
def observe : JsValue → JsObs
  | .arr xs => .arrNode xs.length
  | .obj _ => .objNode
  | v => .prim v

/-- Field-wise (observational) equality: under every path the two values
show the same observation.  This is what "field-wise equal" can mean across
a JSON round trip, where an object key bound to `undefined` and an absent
key are indistinguishable reads. -/
def fieldwiseEq (a b : JsValue) : Prop :=
  ∀ p, observe (pathGet a p) = observe (pathGet b p)

/-- Replace (or append) one binding of an object field list. -/
def setFields : List (String × JsValue) → String → JsValue → List (String × JsValue)
  | [], k, w => [(k, w)]
  | (k1, v1) :: rest, k, w =>
    if k1 = k then (k, w) :: rest else (k1, v1) :: setFields rest k w

/-- The JavaScript assignment `v.k = w` on an object (no-op otherwise). -/
def setField : JsValue → String → JsValue → JsValue
  | .obj fs, k, w => .obj (setFields fs k w)
  | v, _, _ => v

/-- The paths at which `validate` can ever report an error; note that no
path mentions `constraints`. -/
def validatePaths : List String :=
  ["", "iap_version", "task_id", "sender", "sender.agent_id", "task", "task.intent",
    "delivery", "delivery.method", "delivery.webhook", "delivery.email",
    "output", "output.format", "on_failure", "on_failure.action"]

/-- Whitespace-only character lists. -/
def wsOnly (l : List Char) : Prop := ∀ c ∈ l, isWsChar c = true

/-- A list whose head is not a decimal digit; a JSON number followed by such
a list parses without consuming any of it. -/
def numBoundary (l : List Char) : Prop := ∀ c, l.head? = some c → isDigitChar c = false

/-- The characters a rendered JSON value can begin with. -/
def goodHead (c : Char) : Prop :=
  c = '"' ∨ c = lbraceChar ∨ c = '[' ∨ c = 't' ∨ c = 'f' ∨ c = 'n' ∨ c = '-' ∨ isDigitChar c = true

/-! ## Claims about `validate` and `isValid` (C1, C2, C9) -/

/-- C1: the claim says `validate` never throws for every input whatsoever,
explicitly including objects whose optional fields `delivery`, `output` or
`on_failure` are present but `null`.  The code violates this: for a `null`
optional field, `typeof null === 'object'` passes the guard and the
subsequent read of `method` / `format` / `action` throws a `TypeError`.
This theorem evaluates the embedded code at the three failing inputs. -/
theorem c1_validate_faults_on_null_optional :
    validate (JsValue.obj [("iap_version", .str "0.2"), ("task_id", .str "t"),
      ("sender", .obj [("agent_id", .str "a")]), ("task", .obj [("intent", .str "x")]),
      ("delivery", .null)]) = .error () ∧
    validate (JsValue.obj [("output", .null)]) = .error () ∧
    validate (JsValue.obj [("on_failure", .null)]) = .error () :=
  ⟨rfl, rfl, rfl⟩

/-- C2 counterexample: the claim says every input that is not a non-null
structured object — *including arrays* — yields exactly one error with path
`""`.  But `typeof [] === 'object'`, so an array passes the top-level guard
and is validated field-wise: `validate([])` returns four errors, not one. -/
theorem c2_counterexample :
    validate (JsValue.arr []) =
      .ok [⟨"iap_version", "Must be \"0.2\""⟩, ⟨"task_id", "Required string"⟩,
        ⟨"sender", "Required object"⟩, ⟨"task", "Required object"⟩] ∧
    [(⟨"iap_version", "Must be \"0.2\""⟩ : IAPValidationError), ⟨"task_id", "Required string"⟩,
        ⟨"sender", "Required object"⟩, ⟨"task", "Required object"⟩].length ≠ 1 :=
  ⟨rfl, by decide⟩

/-- C2 (amended): for every input that is falsy or whose `typeof` is not
`"object"` — `null`, `undefined`, numbers, strings, booleans, but not
arrays — `validate` returns exactly one error, with path `""` and message
`"Task must be an object"`, and performs no further checks. -/
theorem c2_nonobject_single_error (v : JsValue)
    (h : v.truthy = false ∨ v.typeof ≠ "object") :
    validate v = .ok [⟨"", "Task must be an object"⟩] := by
  unfold validate
  rw [if_pos]
  rcases h with h | h
  · exact Or.inl (by simp [h])
  · exact Or.inr h

/-- C2 witness: the amended theorem applied at `null` and at a number. -/
theorem c2_witness :
    validate JsValue.null = .ok [⟨"", "Task must be an object"⟩] ∧
    validate (JsValue.num 7) = .ok [⟨"", "Task must be an object"⟩] :=
  ⟨c2_nonobject_single_error .null (Or.inl rfl),
    c2_nonobject_single_error (.num 7) (Or.inr (by decide))⟩

/-- C9: `isValid` returns `ok true` exactly when `validate` returns the
empty error list, and it propagates exactly the faults of `validate`: it has
no independent logic and never diverges from `validate`. -/
theorem c9_isValid_iff_validate_empty (x : JsValue) :
    (isValid x = .ok true ↔ validate x = .ok []) ∧
    (∀ e, isValid x = .error e ↔ validate x = .error e) := by
  constructor
  · unfold isValid
    cases hv : validate x with
    | error e => simp [hv, Bind.bind, Except.bind]
    | ok errs =>
      cases errs with
      | nil => simp [hv, Bind.bind, Except.bind, Pure.pure, Except.pure]
      | cons a l => simp [hv, Bind.bind, Except.bind, Pure.pure, Except.pure]
  · intro e
    unfold isValid
    cases hv : validate x with
    | error e1 => simp [hv, Bind.bind, Except.bind]
    | ok errs => simp [hv, Bind.bind, Except.bind, Pure.pure, Except.pure]

/-! ## Claims about the builder (C7, C10, C3) -/

/-- C7: `build()` raises the sender precondition when no sender was ever
set, raises the intent precondition when the accumulated task has no truthy
intent, and otherwise returns a `TaskHandoff` whose `sender` is the
accumulated sender, whose `task` (hence `task.intent`) is the accumulated
task, and whose `iap_version` is `"0.2"`. -/
theorem c7_build_contract (b : TaskBuilder) (g : String) :
    (b._sender = none → b.build g = .error "Sender is required - call from() or sender()") ∧
    (∀ s, b._sender = some s → b.intentTruthy = false →
      b.build g = .error "Task intent is required - call intent() or task()") ∧
    (∀ s t i, b._sender = some s → b._task = some t → t.intent = some i → i ≠ "" →
      b.build g = .ok (createTask g b._taskId s b._delivery t
          b._constraints b._successCriteria b._output b._onFailure) ∧
        (createTask g b._taskId s b._delivery t
          b._constraints b._successCriteria b._output b._onFailure).iap_version = "0.2" ∧
        (createTask g b._taskId s b._delivery t
          b._constraints b._successCriteria b._output b._onFailure).sender = s ∧
        (createTask g b._taskId s b._delivery t
          b._constraints b._successCriteria b._output b._onFailure).task = t) := by
  refine ⟨?_, ?_, ?_⟩
  · intro hs
    unfold TaskBuilder.build
    rw [hs]
  · intro s hs hit
    unfold TaskBuilder.build
    rw [hs]
    simp [hit]
  · intro s t i hs ht hi hne
    have hit : b.intentTruthy = true := by
      unfold TaskBuilder.intentTruthy
      rw [ht]
      simp [Option.bind, hi, hne]
    unfold TaskBuilder.build
    rw [hs]
    simp only [hit]
    refine ⟨?_, rfl, rfl, rfl⟩
    simp [ht]

/-- C7 witness: the three spec examples, via the contract theorem. -/
theorem c7_witness :
    (TaskBuilder.new.intent "x").build "g" =
      .error "Sender is required - call from() or sender()" ∧
    (TaskBuilder.new.from "a" none none).build "g" =
      .error "Task intent is required - call intent() or task()" ∧
    ((TaskBuilder.new.from "a" none none).intent "x").build "g" =
      .ok (createTask "g" none ⟨"a", none, none, none⟩ none ⟨some "x", none, none, none⟩
        none none none none) ∧
    (createTask "g" none ⟨"a", none, none, none⟩ none ⟨some "x", none, none, none⟩
        none none none none).iap_version = "0.2" ∧
    (createTask "g" none ⟨"a", none, none, none⟩ none ⟨some "x", none, none, none⟩
        none none none none).sender.agent_id = "a" ∧
    (createTask "g" none ⟨"a", none, none, none⟩ none ⟨some "x", none, none, none⟩
        none none none none).task.intent = some "x" := by
  obtain ⟨h1, h2, h3, h4⟩ :=
    (c7_build_contract ((TaskBuilder.new.from "a" none none).intent "x") "g").2.2
      ⟨"a", none, none, none⟩ ⟨some "x", none, none, none⟩ "x" rfl rfl rfl (by decide)
  exact ⟨(c7_build_contract (TaskBuilder.new.intent "x") "g").1 rfl,
    (c7_build_contract (TaskBuilder.new.from "a" none none) "g").2.1
      ⟨"a", none, none, none⟩ rfl rfl,
    h1, h2, congrArg IAPSender.agent_id h3, congrArg IAPTask.intent h4⟩

/-- C10: for a builder whose sender is set, `build` raises the intent
precondition exactly when the accumulated intent is not truthy — which
covers an intent explicitly set to `""` and a task sub-object supplied
without an intent, not merely the case where no intent setter was called. -/
theorem c10_intent_precondition (b : TaskBuilder) (g : String) (s : IAPSender)
    (hs : b._sender = some s) :
    (b.build g = .error "Task intent is required - call intent() or task()" ↔
      b.intentTruthy = false) ∧
    (b.intentTruthy = false ↔
      (b._task.bind (fun t => t.intent) = none ∨ b._task.bind (fun t => t.intent) = some "")) := by
  constructor
  · unfold TaskBuilder.build
    rw [hs]
    by_cases hit : b.intentTruthy
    · simp [hit]
    · simp [hit]
  · unfold TaskBuilder.intentTruthy
    cases hb : b._task.bind (fun t => t.intent) with
    | none => simp
    | some i =>
      by_cases hi : i = ""
      · simp [hi]
      · simp [hi]

/-- C10 witness: an intent explicitly set to the empty string, and a task
sub-object supplied directly with no intent field, both trip the intent
precondition. -/
theorem c10_witness :
    ((TaskBuilder.new.from "a" none none).intent "").build "g" =
      .error "Task intent is required - call intent() or task()" ∧
    ((TaskBuilder.new.from "a" none none).task ⟨none, some "d", none, none⟩).build "g" =
      .error "Task intent is required - call intent() or task()" := by
  constructor
  · exact ((c10_intent_precondition ((TaskBuilder.new.from "a" none none).intent "") "g"
      ⟨"a", none, none, none⟩ rfl).1).mpr rfl
  · exact ((c10_intent_precondition
      ((TaskBuilder.new.from "a" none none).task ⟨none, some "d", none, none⟩) "g"
      ⟨"a", none, none, none⟩ rfl).1).mpr rfl

/-- C3 counterexample: the claim says the per-field output setters
`outputFormat` and `deliverTo` merge-on-write, so setting the format after a
delivery location should preserve `deliver_to`.  In the code `outputFormat`
assigns a fresh object (no spread): after `deliverTo` then `outputFormat`,
`deliver_to` is gone. -/
theorem c3_counterexample :
    ((TaskBuilder.new.deliverTo "file:///out.md")._output.getD emptyOutput).deliver_to =
      some "file:///out.md" ∧
    (((TaskBuilder.new.deliverTo "file:///out.md").outputFormat "markdown" none)._output.getD
      emptyOutput).deliver_to = none :=
  ⟨rfl, rfl⟩

/-- C3 (amended): every per-field setter targeting a sub-object merges on
write — it sets its own sub-field and preserves every other sub-field of
that sub-object — with the single exception of `outputFormat`, which
replaces the whole output sub-object by `(format, schema, no deliver_to)`;
the setters that accept a fully-formed sub-object (`task`, `sender`,
`delivery`, `constraints`, `output`) replace that sub-object wholesale. -/
theorem c3_merge_on_write (b : TaskBuilder) (x : String) (n : Int) (l : List String)
    (sch : Option String) (s0 : IAPSender) (t0 : IAPTask) (d0 : IAPDelivery)
    (c0 : IAPConstraints) (o0 : IAPOutput) :
    -- task group: each setter writes its field, keeps the three others
    ((b.intent x)._task = some { b._task.getD emptyTask with intent := some x }) ∧
    ((b.details x)._task = some { b._task.getD emptyTask with details := some x }) ∧
    ((b.context x)._task = some { b._task.getD emptyTask with context := some x }) ∧
    ((b.contextRef x)._task = some { b._task.getD emptyTask with context_ref := some x }) ∧
    -- constraints group
    ((b.timeLimit x)._constraints =
      some { b._constraints.getD emptyConstraints with time_limit := some x }) ∧
    ((b.tokenBudget n)._constraints =
      some { b._constraints.getD emptyConstraints with token_budget := some n }) ∧
    ((b.toolsAllowed l)._constraints =
      some { b._constraints.getD emptyConstraints with tools_allowed := some l }) ∧
    ((b.toolsDenied l)._constraints =
      some { b._constraints.getD emptyConstraints with tools_denied := some l }) ∧
    ((b.scope x)._constraints =
      some { b._constraints.getD emptyConstraints with scope := some x }) ∧
    ((b.requiresCapabilities l)._constraints =
      some { b._constraints.getD emptyConstraints with requires_capabilities := some l }) ∧
    -- output group: deliverTo merges, outputFormat replaces wholesale
    ((b.deliverTo x)._output =
      some { b._output.getD emptyOutput with deliver_to := some x }) ∧
    ((b.outputFormat x sch)._output =
      some { format := some x, schema := sch, deliver_to := none }) ∧
    -- an explicit merged pair: intent after details preserves details
    (((b.details x).intent x)._task =
      some { b._task.getD emptyTask with details := some x, intent := some x }) ∧
    -- wholesale setters replace the whole sub-object
    ((b.sender s0)._sender = some s0) ∧
    ((b.task t0)._task = some t0) ∧
    ((b.delivery d0)._delivery = some d0) ∧
    ((b.constraints c0)._constraints = some c0) ∧
    ((b.output o0)._output = some o0) := by
  exact ⟨rfl, rfl, rfl, rfl, rfl, rfl, rfl, rfl, rfl, rfl, rfl, rfl, rfl, rfl, rfl, rfl, rfl, rfl⟩

/-! ## Structure of `validate` on objects (supporting C4 and C8) -/

theorem fieldOf_obj (fs : List (String × JsValue)) (k : String) :
    fieldOf (.obj fs) k = objGet fs k := rfl

theorem jsGet_obj (fs : List (String × JsValue)) (k : String) :
    jsGet (.obj fs) k = .ok (objGet fs k) := rfl

/-- `validate` on an object is the top checks followed by the three
optional-section computations, in source order. -/
theorem validate_obj (tfs : List (String × JsValue)) :
    validate (.obj tfs) =
      Bind.bind (deliveryErrs (objGet tfs "delivery")) (fun dE =>
        Bind.bind (outputErrs (objGet tfs "output")) (fun oE =>
          Bind.bind (onFailureErrs (objGet tfs "on_failure")) (fun fE =>
            pure (versionCheckErrs (objGet tfs "iap_version") ++
              taskIdCheckErrs (objGet tfs "task_id") ++
              senderErrs (objGet tfs "sender") ++ taskErrs (objGet tfs "task") ++
              dE ++ oE ++ fE)))) := by
  unfold validate
  rw [if_neg (by simp [JsValue.truthy, JsValue.typeof])]
  rfl

/-- If the three optional sections succeed, `validate` returns their
concatenation after the top checks. -/
theorem validate_obj_ok (tfs : List (String × JsValue)) (dE oE fE : List IAPValidationError)
    (hd : deliveryErrs (objGet tfs "delivery") = .ok dE)
    (ho : outputErrs (objGet tfs "output") = .ok oE)
    (hf : onFailureErrs (objGet tfs "on_failure") = .ok fE) :
    validate (.obj tfs) = .ok (versionCheckErrs (objGet tfs "iap_version") ++
      taskIdCheckErrs (objGet tfs "task_id") ++
      senderErrs (objGet tfs "sender") ++ taskErrs (objGet tfs "task") ++
      dE ++ oE ++ fE) := by
  rw [validate_obj, hd, ho, hf]
  rfl

/-- Conversely, a successful `validate` on an object decomposes into
successful sections. -/
theorem validate_obj_inv (tfs : List (String × JsValue)) (errs : List IAPValidationError)
    (h : validate (.obj tfs) = .ok errs) :
    ∃ dE oE fE, deliveryErrs (objGet tfs "delivery") = .ok dE ∧
      outputErrs (objGet tfs "output") = .ok oE ∧
      onFailureErrs (objGet tfs "on_failure") = .ok fE ∧
      errs = versionCheckErrs (objGet tfs "iap_version") ++
        taskIdCheckErrs (objGet tfs "task_id") ++
        senderErrs (objGet tfs "sender") ++ taskErrs (objGet tfs "task") ++
        dE ++ oE ++ fE := by
  rw [validate_obj] at h
  cases hd : deliveryErrs (objGet tfs "delivery") with
  | error e => rw [hd] at h; exact absurd h (by simp [Bind.bind, Except.bind])
  | ok dE =>
    rw [hd] at h
    cases ho : outputErrs (objGet tfs "output") with
    | error e => rw [ho] at h; exact absurd h (by simp [Bind.bind, Except.bind])
    | ok oE =>
      rw [ho] at h
      cases hf : onFailureErrs (objGet tfs "on_failure") with
      | error e => rw [hf] at h; exact absurd h (by simp [Bind.bind, Except.bind])
      | ok fE =>
        rw [hf] at h
        simp only [Bind.bind, Except.bind, pure, Except.pure, Except.ok.injEq] at h
        exact ⟨dE, oE, fE, rfl, rfl, rfl, h.symm⟩

theorem versionCheckErrs_paths (v : JsValue) (e : IAPValidationError)
    (he : e ∈ versionCheckErrs v) : e.path = "iap_version" := by
  unfold versionCheckErrs at he
  split at he <;> simp_all

theorem taskIdCheckErrs_paths (v : JsValue) (e : IAPValidationError)
    (he : e ∈ taskIdCheckErrs v) : e.path = "task_id" := by
  unfold taskIdCheckErrs at he
  split at he <;> simp_all

theorem senderErrs_paths (v : JsValue) (e : IAPValidationError)
    (he : e ∈ senderErrs v) : e.path = "sender" ∨ e.path = "sender.agent_id" := by
  unfold senderErrs at he
  split at he
  · simp_all
  · split at he <;> simp_all

theorem taskErrs_paths (v : JsValue) (e : IAPValidationError)
    (he : e ∈ taskErrs v) : e.path = "task" ∨ e.path = "task.intent" := by
  unfold taskErrs at he
  split at he
  · simp_all
  · split at he <;> simp_all

/-- Canonical form of the delivery section on an object. -/
theorem deliveryErrs_obj (fs : List (String × JsValue)) :
    deliveryErrs (.obj fs) = .ok (
      (if isOneOf (objGet fs "method") ["sync", "async", "email"] then []
        else [⟨"delivery.method", "Must be \"sync\", \"async\", or \"email\""⟩]) ++
      (if isStr (objGet fs "method") "async" then
        (if (objGet fs "webhook").truthy then []
          else [⟨"delivery.webhook", "Required for async delivery"⟩]) else []) ++
      (if isStr (objGet fs "method") "email" then
        (if (objGet fs "email").truthy then []
          else [⟨"delivery.email", "Required for email delivery"⟩]) else [])) := by
  by_cases h1 : isStr (objGet fs "method") "async" <;>
    by_cases h2 : isStr (objGet fs "method") "email" <;>
      simp [deliveryErrs, jsGet, Bind.bind, Except.bind, Pure.pure, Except.pure,
        JsValue.isUndef, JsValue.typeof, h1, h2]

theorem deliveryErrs_paths (v : JsValue) (l : List IAPValidationError)
    (h : deliveryErrs v = .ok l) (e : IAPValidationError) (he : e ∈ l) :
    e.path = "delivery" ∨ e.path = "delivery.method" ∨
      e.path = "delivery.webhook" ∨ e.path = "delivery.email" := by
  cases v with
  | undefined =>
    rw [show deliveryErrs .undefined = .ok [] from rfl] at h
    injection h with h; subst h; cases he
  | null =>
    exact absurd h (by intro hc; exact Except.noConfusion hc)
  | bool b =>
    rw [show deliveryErrs (.bool b) = .ok [⟨"delivery", "Must be an object"⟩] from rfl] at h
    injection h with h; subst h
    rw [List.mem_singleton] at he; subst he
    exact Or.inl rfl
  | num n =>
    rw [show deliveryErrs (.num n) = .ok [⟨"delivery", "Must be an object"⟩] from rfl] at h
    injection h with h; subst h
    rw [List.mem_singleton] at he; subst he
    exact Or.inl rfl
  | str s =>
    rw [show deliveryErrs (.str s) = .ok [⟨"delivery", "Must be an object"⟩] from rfl] at h
    injection h with h; subst h
    rw [List.mem_singleton] at he; subst he
    exact Or.inl rfl
  | arr xs =>
    rw [show deliveryErrs (.arr xs) =
      .ok [⟨"delivery.method", "Must be \"sync\", \"async\", or \"email\""⟩] from rfl] at h
    injection h with h; subst h
    rw [List.mem_singleton] at he; subst he
    exact Or.inr (Or.inl rfl)
  | obj fs =>
    rw [deliveryErrs_obj] at h
    injection h with h; subst h
    rcases List.mem_append.mp he with he1 | he1
    · rcases List.mem_append.mp he1 with he2 | he2
      · split at he2
        · cases he2
        · rw [List.mem_singleton] at he2; subst he2
          exact Or.inr (Or.inl rfl)
      · split at he2
        · split at he2
          · cases he2
          · rw [List.mem_singleton] at he2; subst he2
            exact Or.inr (Or.inr (Or.inl rfl))
        · cases he2
    · split at he1
      · split at he1
        · cases he1
        · rw [List.mem_singleton] at he1; subst he1
          exact Or.inr (Or.inr (Or.inr rfl))
      · cases he1

/-- Canonical form of the output section on an object. -/
theorem outputErrs_obj (fs : List (String × JsValue)) :
    outputErrs (.obj fs) = .ok
      (if isOneOf (objGet fs "format") ["markdown", "json", "yaml", "code", "freeform"] then []
        else [⟨"output.format", "Must be markdown, json, yaml, code, or freeform"⟩]) := by
  simp [outputErrs, jsGet, Bind.bind, Except.bind, Pure.pure, Except.pure,
    JsValue.isUndef, JsValue.typeof]

theorem outputErrs_paths (v : JsValue) (l : List IAPValidationError)
    (h : outputErrs v = .ok l) (e : IAPValidationError) (he : e ∈ l) :
    e.path = "output" ∨ e.path = "output.format" := by
  cases v with
  | undefined =>
    rw [show outputErrs .undefined = .ok [] from rfl] at h
    injection h with h; subst h; cases he
  | null => exact absurd h (by intro hc; exact Except.noConfusion hc)
  | bool b =>
    rw [show outputErrs (.bool b) = .ok [⟨"output", "Must be an object"⟩] from rfl] at h
    injection h with h; subst h
    rw [List.mem_singleton] at he; subst he
    exact Or.inl rfl
  | num n =>
    rw [show outputErrs (.num n) = .ok [⟨"output", "Must be an object"⟩] from rfl] at h
    injection h with h; subst h
    rw [List.mem_singleton] at he; subst he
    exact Or.inl rfl
  | str s =>
    rw [show outputErrs (.str s) = .ok [⟨"output", "Must be an object"⟩] from rfl] at h
    injection h with h; subst h
    rw [List.mem_singleton] at he; subst he
    exact Or.inl rfl
  | arr xs =>
    rw [show outputErrs (.arr xs) =
      .ok [⟨"output.format", "Must be markdown, json, yaml, code, or freeform"⟩] from rfl] at h
    injection h with h; subst h
    rw [List.mem_singleton] at he; subst he
    exact Or.inr rfl
  | obj fs =>
    rw [outputErrs_obj] at h
    injection h with h; subst h
    split at he
    · cases he
    · rw [List.mem_singleton] at he; subst he
      exact Or.inr rfl

/-- Canonical form of the on_failure section on an object. -/
theorem onFailureErrs_obj (fs : List (String × JsValue)) :
    onFailureErrs (.obj fs) = .ok
      (if isOneOf (objGet fs "action") ["return_partial", "retry", "escalate", "abort"] then []
        else [⟨"on_failure.action", "Must be return_partial, retry, escalate, or abort"⟩]) := by
  simp [onFailureErrs, jsGet, Bind.bind, Except.bind, Pure.pure, Except.pure,
    JsValue.isUndef, JsValue.typeof]

theorem onFailureErrs_paths (v : JsValue) (l : List IAPValidationError)
    (h : onFailureErrs v = .ok l) (e : IAPValidationError) (he : e ∈ l) :
    e.path = "on_failure" ∨ e.path = "on_failure.action" := by
  cases v with
  | undefined =>
    rw [show onFailureErrs .undefined = .ok [] from rfl] at h
    injection h with h; subst h; cases he
  | null => exact absurd h (by intro hc; exact Except.noConfusion hc)
  | bool b =>
    rw [show onFailureErrs (.bool b) = .ok [⟨"on_failure", "Must be an object"⟩] from rfl] at h
    injection h with h; subst h
    rw [List.mem_singleton] at he; subst he
    exact Or.inl rfl
  | num n =>
    rw [show onFailureErrs (.num n) = .ok [⟨"on_failure", "Must be an object"⟩] from rfl] at h
    injection h with h; subst h
    rw [List.mem_singleton] at he; subst he
    exact Or.inl rfl
  | str s =>
    rw [show onFailureErrs (.str s) = .ok [⟨"on_failure", "Must be an object"⟩] from rfl] at h
    injection h with h; subst h
    rw [List.mem_singleton] at he; subst he
    exact Or.inl rfl
  | arr xs =>
    rw [show onFailureErrs (.arr xs) =
      .ok [⟨"on_failure.action", "Must be return_partial, retry, escalate, or abort"⟩] from rfl] at h
    injection h with h; subst h
    rw [List.mem_singleton] at he; subst he
    exact Or.inr rfl
  | obj fs =>
    rw [onFailureErrs_obj] at h
    injection h with h; subst h
    split at he
    · cases he
    · rw [List.mem_singleton] at he; subst he
      exact Or.inr rfl

/-- Every error `validate` ever reports carries one of the fixed paths —
in particular no path beginning with `constraints` ever occurs. -/
theorem validate_paths (v : JsValue) (errs : List IAPValidationError)
    (h : validate v = .ok errs) (e : IAPValidationError) (he : e ∈ errs) :
    e.path ∈ validatePaths := by
  by_cases hg : ¬ v.truthy = true ∨ v.typeof ≠ "object"
  · unfold validate at h
    rw [if_pos hg] at h
    injection h with h; subst h
    rw [List.mem_singleton] at he; subst he
    simp [validatePaths]
  · push_neg at hg
    obtain ⟨ht, hty⟩ := hg
    cases v with
    | undefined => cases ht
    | null => cases ht
    | bool b => exact absurd hty (by simp [JsValue.typeof])
    | num n => exact absurd hty (by simp [JsValue.typeof])
    | str s => exact absurd hty (by simp [JsValue.typeof])
    | arr xs =>
      unfold validate at h
      rw [if_neg (by simp [JsValue.truthy, JsValue.typeof])] at h
      have harr : ∀ k, fieldOf (.arr xs) k = .undefined := fun k => rfl
      simp only [harr, Bind.bind, Except.bind, Pure.pure, Except.pure] at h
      rw [show deliveryErrs .undefined = .ok [] from rfl,
        show outputErrs .undefined = .ok [] from rfl,
        show onFailureErrs .undefined = .ok [] from rfl] at h
      injection h with h; subst h
      simp only [List.append_nil, List.mem_append] at he
      rcases he with (he | he) | he
      · rcases he with he | he
        · rw [versionCheckErrs_paths _ _ he]; simp [validatePaths]
        · rw [taskIdCheckErrs_paths _ _ he]; simp [validatePaths]
      · rcases senderErrs_paths _ _ he with hp | hp <;> rw [hp] <;> simp [validatePaths]
      · rcases taskErrs_paths _ _ he with hp | hp <;> rw [hp] <;> simp [validatePaths]
    | obj fs =>
      obtain ⟨dE, oE, fE, hd, ho, hf, herrs⟩ := validate_obj_inv fs errs h
      subst herrs
      simp only [List.mem_append] at he
      rcases he with (((((he | he) | he) | he) | he) | he) | he
      · rw [versionCheckErrs_paths _ _ he]; simp [validatePaths]
      · rw [taskIdCheckErrs_paths _ _ he]; simp [validatePaths]
      · rcases senderErrs_paths _ _ he with hp | hp <;> rw [hp] <;> simp [validatePaths]
      · rcases taskErrs_paths _ _ he with hp | hp <;> rw [hp] <;> simp [validatePaths]
      · rcases deliveryErrs_paths _ _ hd _ he with hp | hp | hp | hp <;> rw [hp] <;>
          simp [validatePaths]
      · rcases outputErrs_paths _ _ ho _ he with hp | hp <;> rw [hp] <;> simp [validatePaths]
      · rcases onFailureErrs_paths _ _ hf _ he with hp | hp <;> rw [hp] <;> simp [validatePaths]

/-! ## C4: validation of present optional sub-objects -/

/-- C4 counterexample: the claim includes `constraints` among the optional
sub-objects validated when present, with a present non-object producing an
error at that field's path.  But `validate` never looks at `constraints`:
a conformant document with `constraints: 5` (a number) validates with zero
errors. -/
theorem c4_counterexample :
    validate (JsValue.obj [("iap_version", .str "0.2"), ("task_id", .str "t"),
      ("sender", .obj [("agent_id", .str "a")]), ("task", .obj [("intent", .str "x")]),
      ("constraints", .num 5)]) = .ok [] ∧
    (JsValue.num 5).typeof ≠ "object" :=
  ⟨rfl, by decide⟩

/-- C4 (amended): the optional sub-objects `delivery`, `output` and
`on_failure` (but not `constraints`, which is never inspected) are validated
internally when present: an empty `{}` value produces exactly the error for
that sub-object's required sub-field (`delivery.method`, `output.format`,
`on_failure.action`); a present value whose `typeof` is not `"object"`
(numbers, strings, booleans — not `null`, which faults, and not arrays)
produces an error at that field's path; and no error `validate` ever
returns has a path mentioning `constraints`. -/
theorem c4_optional_subobjects :
    (deliveryErrs (.obj []) =
        .ok [⟨"delivery.method", "Must be \"sync\", \"async\", or \"email\""⟩] ∧
      outputErrs (.obj []) =
        .ok [⟨"output.format", "Must be markdown, json, yaml, code, or freeform"⟩] ∧
      onFailureErrs (.obj []) =
        .ok [⟨"on_failure.action", "Must be return_partial, retry, escalate, or abort"⟩]) ∧
    (∀ v : JsValue, v.typeof ≠ "object" → v.isUndef = false →
      deliveryErrs v = .ok [⟨"delivery", "Must be an object"⟩] ∧
      outputErrs v = .ok [⟨"output", "Must be an object"⟩] ∧
      onFailureErrs v = .ok [⟨"on_failure", "Must be an object"⟩]) ∧
    (∀ v errs, validate v = .ok errs → ∀ e ∈ errs, e.path ∈ validatePaths) ∧
    "constraints" ∉ validatePaths := by
  refine ⟨⟨rfl, rfl, rfl⟩, ?_, fun v errs h e he => validate_paths v errs h e he, by decide⟩
  intro v hty hu
  cases v with
  | undefined => cases hu
  | null => exact absurd hty (by simp [JsValue.typeof])
  | bool b => exact ⟨rfl, rfl, rfl⟩
  | num n => exact ⟨rfl, rfl, rfl⟩
  | str s => exact ⟨rfl, rfl, rfl⟩
  | arr xs => exact absurd hty (by simp [JsValue.typeof])
  | obj fs => exact absurd hty (by simp [JsValue.typeof])

/-- C4 witness: the amended theorem applied to a number-valued field and to
a concrete validation run. -/
theorem c4_witness :
    deliveryErrs (.num 5) = .ok [⟨"delivery", "Must be an object"⟩] ∧
    (⟨"iap_version", "Must be \"0.2\""⟩ : IAPValidationError).path ∈ validatePaths := by
  constructor
  · exact (c4_optional_subobjects.2.1 (.num 5) (by decide) rfl).1
  · exact c4_optional_subobjects.2.2.1 (.obj [])
      [⟨"iap_version", "Must be \"0.2\""⟩, ⟨"task_id", "Required string"⟩,
        ⟨"sender", "Required object"⟩, ⟨"task", "Required object"⟩] rfl
      ⟨"iap_version", "Must be \"0.2\""⟩ (List.mem_cons_self _ _)

/-! ## C8: the async-delivery webhook requirement -/

theorem objGet_cons_self (k : String) (v1 : JsValue) (rest : List (String × JsValue)) :
    objGet ((k, v1) :: rest) k = v1 := by
  simp [objGet, List.lookup]

theorem objGet_cons_ne (k1 : String) (v1 : JsValue) (rest : List (String × JsValue))
    (q : String) (h : ¬ q = k1) : objGet ((k1, v1) :: rest) q = objGet rest q := by
  simp only [objGet, List.lookup, show (q == k1) = false from beq_eq_false_iff_ne.mpr h]

theorem objGet_setFields_self (fs : List (String × JsValue)) (k : String) (w : JsValue) :
    objGet (setFields fs k w) k = w := by
  induction fs with
  | nil => simp [setFields, objGet, List.lookup]
  | cons f rest ih =>
    obtain ⟨k1, v1⟩ := f
    by_cases h : k1 = k
    · simp [setFields, h, objGet, List.lookup]
    · rw [setFields, if_neg h, objGet_cons_ne k1 v1 _ k (fun hc => h hc.symm)]
      exact ih

theorem objGet_setFields_ne (fs : List (String × JsValue)) (k : String) (w : JsValue)
    (q : String) (h : q ≠ k) : objGet (setFields fs k w) q = objGet fs q := by
  induction fs with
  | nil =>
    rw [show setFields [] k w = [(k, w)] from rfl, objGet_cons_ne k w [] q h]
  | cons f rest ih =>
    obtain ⟨k1, v1⟩ := f
    by_cases h1 : k1 = k
    · subst h1
      rw [setFields, if_pos rfl, objGet_cons_ne k1 w rest q h,
        objGet_cons_ne k1 v1 rest q h]
    · rw [setFields, if_neg h1]
      by_cases h2 : q = k1
      · subst h2
        rw [objGet_cons_self, objGet_cons_self]
      · rw [objGet_cons_ne k1 v1 _ q h2, objGet_cons_ne k1 v1 rest q h2]
        exact ih

/-- The delivery section for an async delivery without a truthy webhook. -/
theorem deliveryErrs_async_no_webhook (dfs : List (String × JsValue))
    (hm : objGet dfs "method" = .str "async")
    (hw : (objGet dfs "webhook").truthy = false) :
    deliveryErrs (.obj dfs) = .ok [⟨"delivery.webhook", "Required for async delivery"⟩] := by
  rw [deliveryErrs_obj, hm, hw]
  simp [isOneOf, isStr]

/-- The delivery section for an async delivery with a truthy webhook. -/
theorem deliveryErrs_async_webhook (dfs : List (String × JsValue))
    (hm : objGet dfs "method" = .str "async")
    (hw : (objGet dfs "webhook").truthy = true) :
    deliveryErrs (.obj dfs) = .ok [] := by
  rw [deliveryErrs_obj, hm, hw]
  simp [isOneOf, isStr]

/-- C8 counterexample: the claim quantifies over *every* candidate whose
delivery is an async object without a truthy webhook; but a candidate that
additionally carries `output: null` makes `validate` throw, so its result
contains no error at `delivery.webhook` (there is no result at all). -/
theorem c8_counterexample :
    validate (JsValue.obj [("delivery", .obj [("method", .str "async")]), ("output", .null)]) =
      .error () ∧
    objGet [("delivery", JsValue.obj [("method", JsValue.str "async")]), ("output", JsValue.null)]
      "delivery" = .obj [("method", .str "async")] ∧
    objGet [("method", JsValue.str "async")] "method" = .str "async" ∧
    (objGet [("method", JsValue.str "async")] "webhook").truthy = false :=
  ⟨rfl, rfl, rfl, rfl⟩

theorem filter_no_webhook_path (l : List IAPValidationError)
    (h : ∀ e ∈ l, e.path ≠ "delivery.webhook") :
    l.filter (fun e => !(e.path == "delivery.webhook")) = l :=
  List.filter_eq_self.mpr (fun e he => by simp [h e he])

/-- C8 (amended): for every candidate object on which `validate` completes
without a fault, whose `delivery` is an object with `method` equal to
`"async"` and no truthy `webhook`, the result contains the error at
`"delivery.webhook"`; overwriting `webhook` with any truthy value removes
exactly that error and leaves the rest of the list unchanged. -/
theorem c8_async_webhook (tfs dfs : List (String × JsValue))
    (errs : List IAPValidationError) (w : JsValue)
    (hval : validate (.obj tfs) = .ok errs)
    (hdel : objGet tfs "delivery" = .obj dfs)
    (hm : objGet dfs "method" = .str "async")
    (hw : (objGet dfs "webhook").truthy = false)
    (hwt : w.truthy = true) :
    (⟨"delivery.webhook", "Required for async delivery"⟩ : IAPValidationError) ∈ errs ∧
    validate (setField (.obj tfs) "delivery" (setField (.obj dfs) "webhook" w)) =
      .ok (errs.filter (fun e => !(e.path == "delivery.webhook"))) := by
  obtain ⟨dE, oE, fE, hd, ho, hf, herrs⟩ := validate_obj_inv tfs errs hval
  rw [hdel, deliveryErrs_async_no_webhook dfs hm hw] at hd
  injection hd with hd
  subst hd
  subst herrs
  have hV : ∀ e ∈ versionCheckErrs (objGet tfs "iap_version"),
      e.path ≠ "delivery.webhook" := fun e he => by
    rw [versionCheckErrs_paths _ _ he]; decide
  have hT : ∀ e ∈ taskIdCheckErrs (objGet tfs "task_id"),
      e.path ≠ "delivery.webhook" := fun e he => by
    rw [taskIdCheckErrs_paths _ _ he]; decide
  have hS : ∀ e ∈ senderErrs (objGet tfs "sender"),
      e.path ≠ "delivery.webhook" := fun e he => by
    rcases senderErrs_paths _ _ he with hp | hp <;> rw [hp] <;> decide
  have hTa : ∀ e ∈ taskErrs (objGet tfs "task"),
      e.path ≠ "delivery.webhook" := fun e he => by
    rcases taskErrs_paths _ _ he with hp | hp <;> rw [hp] <;> decide
  have hO : ∀ e ∈ oE, e.path ≠ "delivery.webhook" := fun e he => by
    rcases outputErrs_paths _ _ ho _ he with hp | hp <;> rw [hp] <;> decide
  have hF : ∀ e ∈ fE, e.path ≠ "delivery.webhook" := fun e he => by
    rcases onFailureErrs_paths _ _ hf _ he with hp | hp <;> rw [hp] <;> decide
  constructor
  · exact List.mem_append.mpr (Or.inl (List.mem_append.mpr (Or.inl
      (List.mem_append.mpr (Or.inr (List.mem_singleton.mpr rfl))))))
  · show validate (.obj (setFields tfs "delivery" (.obj (setFields dfs "webhook" w)))) = _
    have hd2 : deliveryErrs (objGet (setFields tfs "delivery"
        (.obj (setFields dfs "webhook" w))) "delivery") = .ok [] := by
      rw [objGet_setFields_self]
      exact deliveryErrs_async_webhook _
        (by rw [objGet_setFields_ne _ _ _ _ (by decide)]; exact hm)
        (by rw [objGet_setFields_self]; exact hwt)
    have ho2 : outputErrs (objGet (setFields tfs "delivery"
        (.obj (setFields dfs "webhook" w))) "output") = .ok oE := by
      rw [objGet_setFields_ne _ _ _ _ (by decide)]; exact ho
    have hf2 : onFailureErrs (objGet (setFields tfs "delivery"
        (.obj (setFields dfs "webhook" w))) "on_failure") = .ok fE := by
      rw [objGet_setFields_ne _ _ _ _ (by decide)]; exact hf
    rw [validate_obj_ok _ [] oE fE hd2 ho2 hf2,
      objGet_setFields_ne _ _ _ "iap_version" (by decide),
      objGet_setFields_ne _ _ _ "task_id" (by decide),
      objGet_setFields_ne _ _ _ "sender" (by decide),
      objGet_setFields_ne _ _ _ "task" (by decide)]
    have hfil : (versionCheckErrs (objGet tfs "iap_version") ++
        taskIdCheckErrs (objGet tfs "task_id") ++
        senderErrs (objGet tfs "sender") ++ taskErrs (objGet tfs "task") ++
        [(⟨"delivery.webhook", "Required for async delivery"⟩ : IAPValidationError)] ++
        oE ++ fE).filter
          (fun e => !(e.path == "delivery.webhook")) =
        versionCheckErrs (objGet tfs "iap_version") ++
        taskIdCheckErrs (objGet tfs "task_id") ++
        senderErrs (objGet tfs "sender") ++ taskErrs (objGet tfs "task") ++
        oE ++ fE := by
      have hsing : List.filter (fun e => !(e.path == "delivery.webhook"))
          [(⟨"delivery.webhook", "Required for async delivery"⟩ : IAPValidationError)] =
          ([] : List IAPValidationError) := rfl
      simp only [List.filter_append]
      rw [filter_no_webhook_path _ hV, filter_no_webhook_path _ hT,
        filter_no_webhook_path _ hS, filter_no_webhook_path _ hTa,
        filter_no_webhook_path _ hO, filter_no_webhook_path _ hF, hsing]
      simp
    rw [hfil]
    simp

/-- C8 witness: the amended theorem at a concrete minimal async document. -/
theorem c8_witness :
    (⟨"delivery.webhook", "Required for async delivery"⟩ : IAPValidationError) ∈
      [(⟨"delivery.webhook", "Required for async delivery"⟩ : IAPValidationError)] ∧
    validate (setField (.obj [("iap_version", .str "0.2"), ("task_id", .str "t"),
        ("sender", .obj [("agent_id", .str "a")]), ("task", .obj [("intent", .str "x")]),
        ("delivery", .obj [("method", .str "async")])]) "delivery"
        (setField (.obj [("method", .str "async")]) "webhook" (.str "https://w"))) =
      .ok ([(⟨"delivery.webhook", "Required for async delivery"⟩ : IAPValidationError)].filter
        (fun e => !(e.path == "delivery.webhook"))) :=
  c8_async_webhook
    [("iap_version", .str "0.2"), ("task_id", .str "t"),
      ("sender", .obj [("agent_id", .str "a")]), ("task", .obj [("intent", .str "x")]),
      ("delivery", .obj [("method", .str "async")])]
    [("method", .str "async")]
    [(⟨"delivery.webhook", "Required for async delivery"⟩ : IAPValidationError)]
    (.str "https://w") rfl rfl rfl rfl rfl

/-! ## C6: the two fault channels of `parse` -/

/-- C6: the claim says `parse` faults exactly on invalid JSON (one fixed
JSON-only message) or on validation errors (the aggregate `path: message`
list).  The code has a third, undocumented fault channel: when the decoded
value makes `validate` throw (a `null` optional sub-object), the `TypeError`
escapes `parse` with neither message.  The first conjunct evaluates the
failing input; the others show the two documented channels working. -/
theorem c6_parse_fault_channels :
    parse "\x7b\"delivery\":null\x7d" = .error .typeError ∧
    parse "not json" = .error (.notJson jsonOnlyMsg) ∧
    parse "\x7b\x7d" = .error (.invalidTask (aggregateMsg
      [⟨"iap_version", "Must be \"0.2\""⟩, ⟨"task_id", "Required string"⟩,
        ⟨"sender", "Required object"⟩, ⟨"task", "Required object"⟩])) ∧
    aggregateMsg [⟨"iap_version", "Must be \"0.2\""⟩, ⟨"task_id", "Required string"⟩] =
      "Invalid IAP task: iap_version: Must be \"0.2\", task_id: Required string" :=
  ⟨rfl, rfl, rfl, rfl⟩

/-! ## Round-trip support: characters, whitespace, digits (for C5) -/

theorem char_toNat_ofNat (n : Nat) (h : n.isValidChar) : (Char.ofNat n).toNat = n := by
  unfold Char.ofNat
  rw [dif_pos h]
  simp [Char.ofNatAux, Char.toNat, UInt32.toNat, BitVec.toNat_ofNatLt]

theorem digitChar_toNat (d : Nat) (h : d < 10) : (digitChar d).toNat = 48 + d := by
  unfold digitChar
  exact char_toNat_ofNat _ (Or.inl (by omega))

theorem isDigitChar_digitChar (d : Nat) (h : d < 10) : isDigitChar (digitChar d) = true := by
  simp [isDigitChar, digitChar_toNat d h]
  omega

theorem skipWs_cons_not_ws (c : Char) (l : List Char) (h : isWsChar c = false) :
    skipWs (c :: l) = c :: l := by
  simp [skipWs, h]

theorem skipWs_append (ws l : List Char) (h : wsOnly ws) : skipWs (ws ++ l) = skipWs l := by
  induction ws with
  | nil => rfl
  | cons c rest ih =>
    rw [List.cons_append, skipWs, if_pos (h c (List.mem_cons_self c rest))]
    exact ih (fun c2 hc => h c2 (List.mem_cons_of_mem c hc))

theorem wsOnly_nil : wsOnly [] := by intro c hc; cases hc

theorem wsOnly_indentChars (n : Nat) : wsOnly (indentChars n) := by
  intro c hc
  rw [List.eq_of_mem_replicate hc]
  rfl

theorem wsOnly_newline_indent (n : Nat) : wsOnly ('\n' :: indentChars n) := by
  intro c hc
  rcases List.mem_cons.mp hc with h | h
  · subst h; rfl
  · exact wsOnly_indentChars n c h

/-- Fuel- and accumulator-independence of the digit renderer. -/
theorem natDigitsAux_eq (n : Nat) : ∀ fuel acc, n < fuel →
    natDigitsAux fuel n acc = natDigits n ++ acc := by
  induction n using Nat.strong_induction_on with
  | _ n ih =>
    intro fuel acc hlt
    match fuel with
    | f + 1 =>
      by_cases h10 : n < 10
      · simp [natDigitsAux, h10, natDigits]
      · have hdiv : n / 10 < n := Nat.div_lt_self (by omega) (by omega)
        rw [show natDigitsAux (f + 1) n acc =
            natDigitsAux f (n / 10) (digitChar (n % 10) :: acc) from by
          simp [natDigitsAux, h10]]
        rw [ih (n / 10) hdiv f (digitChar (n % 10) :: acc) (by omega)]
        rw [show natDigits n = natDigits (n / 10) ++ [digitChar (n % 10)] from by
          rw [show natDigits n = natDigitsAux n (n / 10) [digitChar (n % 10)] from by
            simp [natDigits, natDigitsAux, h10]]
          exact ih (n / 10) hdiv n [digitChar (n % 10)] hdiv]
        simp

/-- The standard unfolding equation of `natDigits`. -/
theorem natDigits_unfold (n : Nat) : natDigits n =
    if n < 10 then [digitChar n] else natDigits (n / 10) ++ [digitChar (n % 10)] := by
  by_cases h10 : n < 10
  · simp [natDigits, natDigitsAux, h10]
  · rw [if_neg h10]
    rw [show natDigits n = natDigitsAux n (n / 10) [digitChar (n % 10)] from by
      simp [natDigits, natDigitsAux, h10]]
    exact natDigitsAux_eq (n / 10) n [digitChar (n % 10)]
      (Nat.div_lt_self (by omega) (by omega))

theorem natDigits_ne_nil (n : Nat) : natDigits n ≠ [] := by
  rw [natDigits_unfold]
  split
  · simp
  · simp

theorem natDigits_all_digits (n : Nat) : ∀ c ∈ natDigits n, isDigitChar c = true := by
  induction n using Nat.strong_induction_on with
  | _ n ih =>
    intro c hc
    rw [natDigits_unfold] at hc
    split at hc
    · rw [List.mem_singleton] at hc; subst hc
      exact isDigitChar_digitChar n (by omega)
    · rcases List.mem_append.mp hc with h | h
      · exact ih (n / 10) (Nat.div_lt_self (by omega) (by omega)) c h
      · rw [List.mem_singleton] at h; subst h
        exact isDigitChar_digitChar (n % 10) (Nat.mod_lt n (by omega))

theorem digitsVal_aux (n : Nat) : ∀ a : Nat,
    (natDigits n).foldl (fun a c => 10 * a + (c.toNat - 48)) a =
      a * 10 ^ (natDigits n).length + n := by
  induction n using Nat.strong_induction_on with
  | _ n ih =>
    intro a
    rw [natDigits_unfold]
    by_cases h10 : n < 10
    · simp [h10, List.foldl, digitChar_toNat n h10]
      omega
    · rw [if_neg h10, List.foldl_append, List.length_append,
        ih (n / 10) (Nat.div_lt_self (by omega) (by omega)) a]
      simp [List.foldl, digitChar_toNat (n % 10) (Nat.mod_lt n (by omega))]
      rw [pow_add]
      have : 10 * (n / 10) + (48 + n % 10 - 48) = n := by omega
      ring_nf
      omega

theorem digitsVal_natDigits (n : Nat) : digitsVal (natDigits n) = n := by
  unfold digitsVal
  rw [digitsVal_aux n 0]
  simp

theorem span_digits (l rest : List Char) (hl : ∀ c ∈ l, isDigitChar c = true)
    (hrest : numBoundary rest) :
    (l ++ rest).takeWhile isDigitChar = l ∧ (l ++ rest).dropWhile isDigitChar = rest := by
  induction l with
  | nil =>
    simp only [List.nil_append]
    cases rest with
    | nil => simp
    | cons r rs =>
      have hr : isDigitChar r = false := hrest r rfl
      simp [List.takeWhile, List.dropWhile, hr]
  | cons c cs ih =>
    have hc : isDigitChar c = true := hl c (List.mem_cons_self c cs)
    have := ih (fun c2 h2 => hl c2 (List.mem_cons_of_mem c h2))
    simp [List.takeWhile, List.dropWhile, hc, this.1, this.2]

/-- A rendered integer parses back to itself, consuming exactly its text. -/
theorem parseNum_renderInt (n : Int) (rest : List Char) (hb : numBoundary rest) :
    parseNum (renderInt n ++ rest) = some (.num n, rest) := by
  by_cases hneg : n < 0
  · rw [renderInt, if_pos hneg]
    obtain ⟨c, cs, hcc⟩ : ∃ c cs, natDigits n.natAbs = c :: cs := by
      cases h : natDigits n.natAbs with
      | nil => exact absurd h (natDigits_ne_nil _)
      | cons c cs => exact ⟨c, cs, rfl⟩
    rw [List.cons_append, parseNum]
    rw [if_pos rfl]
    obtain ⟨ht, hd⟩ := span_digits (natDigits n.natAbs) rest (natDigits_all_digits _) hb
    rw [ht, hd]
    rw [if_neg (by simp [natDigits_ne_nil])]
    rw [digitsVal_natDigits]
    rw [show (-(n.natAbs : Int)) = n by omega]
  · rw [renderInt, if_neg hneg]
    obtain ⟨c, cs, hcc⟩ : ∃ c cs, natDigits n.toNat = c :: cs := by
      cases h : natDigits n.toNat with
      | nil => exact absurd h (natDigits_ne_nil _)
      | cons c cs => exact ⟨c, cs, rfl⟩
    rw [hcc, List.cons_append, parseNum]
    have hcd : isDigitChar c = true :=
      natDigits_all_digits n.toNat c (by rw [hcc]; exact List.mem_cons_self c cs)
    rw [if_neg (by intro hcdash; rw [hcdash] at hcd; simp [isDigitChar] at hcd)]
    rw [← List.cons_append, ← hcc]
    obtain ⟨ht, hd⟩ := span_digits (natDigits n.toNat) rest (natDigits_all_digits _) hb
    rw [ht, hd]
    rw [if_neg (by simp [natDigits_ne_nil])]
    rw [digitsVal_natDigits]
    rw [show ((n.toNat : Int)) = n by omega]

/-! ## Round-trip support: string escapes (for C5) -/

theorem parseHexDigit_hexDigitChar (m : Nat) (h : m < 16) :
    parseHexDigit (hexDigitChar m) = some m := by
  unfold hexDigitChar parseHexDigit
  by_cases h10 : m < 10
  · rw [if_pos h10]
    rw [char_toNat_ofNat (48 + m) (Or.inl (by omega))]
    rw [if_pos (by omega)]
    congr 1
    omega
  · rw [if_neg h10]
    rw [char_toNat_ofNat (87 + m) (Or.inl (by omega))]
    rw [if_neg (by omega), if_pos (by omega)]
    congr 1
    omega

/-- A rendered (escaped, quoted) string body parses back to itself. -/
theorem parseStrBody_escBody (l : List Char) : ∀ fuel acc rest, l.length < fuel →
    parseStrBody fuel acc (escBody l ++ '"' :: rest) = some (acc.reverse ++ l, rest) := by
  induction l with
  | nil =>
    intro fuel acc rest hf
    match fuel with
    | f + 1 => simp [escBody, parseStrBody]
  | cons c l ih =>
    intro fuel acc rest hf
    match fuel with
    | f + 1 =>
      have hfl : l.length < f := by simp at hf; omega
      rw [show escBody (c :: l) = escapeChar c ++ escBody l from rfl]
      unfold escapeChar
      split_ifs with h1 h2 h3 h4 h5 h6 h7 h8
      · subst h1
        rw [show (['\\', '"'] ++ escBody l ++ '"' :: rest) =
          '\\' :: '"' :: (escBody l ++ '"' :: rest) from by simp]
        rw [show parseStrBody (f + 1) acc ('\\' :: '"' :: (escBody l ++ '"' :: rest)) =
          parseStrBody f ('"' :: acc) (escBody l ++ '"' :: rest) from by
            simp [parseStrBody, unescape1]]
        rw [ih f _ rest hfl]
        simp
      · subst h2
        rw [show (['\\', '\\'] ++ escBody l ++ '"' :: rest) =
          '\\' :: '\\' :: (escBody l ++ '"' :: rest) from by simp]
        rw [show parseStrBody (f + 1) acc ('\\' :: '\\' :: (escBody l ++ '"' :: rest)) =
          parseStrBody f ('\\' :: acc) (escBody l ++ '"' :: rest) from by
            simp [parseStrBody, unescape1]]
        rw [ih f _ rest hfl]
        simp
      · subst h3
        rw [show (['\\', 'b'] ++ escBody l ++ '"' :: rest) =
          '\\' :: 'b' :: (escBody l ++ '"' :: rest) from by simp]
        rw [show parseStrBody (f + 1) acc ('\\' :: 'b' :: (escBody l ++ '"' :: rest)) =
          parseStrBody f ('\x08' :: acc) (escBody l ++ '"' :: rest) from by
            simp [parseStrBody, unescape1]]
        rw [ih f _ rest hfl]
        simp
      · subst h4
        rw [show (['\\', 't'] ++ escBody l ++ '"' :: rest) =
          '\\' :: 't' :: (escBody l ++ '"' :: rest) from by simp]
        rw [show parseStrBody (f + 1) acc ('\\' :: 't' :: (escBody l ++ '"' :: rest)) =
          parseStrBody f ('\t' :: acc) (escBody l ++ '"' :: rest) from by
            simp [parseStrBody, unescape1]]
        rw [ih f _ rest hfl]
        simp
      · subst h5
        rw [show (['\\', 'n'] ++ escBody l ++ '"' :: rest) =
          '\\' :: 'n' :: (escBody l ++ '"' :: rest) from by simp]
        rw [show parseStrBody (f + 1) acc ('\\' :: 'n' :: (escBody l ++ '"' :: rest)) =
          parseStrBody f ('\n' :: acc) (escBody l ++ '"' :: rest) from by
            simp [parseStrBody, unescape1]]
        rw [ih f _ rest hfl]
        simp
      · subst h6
        rw [show (['\\', 'f'] ++ escBody l ++ '"' :: rest) =
          '\\' :: 'f' :: (escBody l ++ '"' :: rest) from by simp]
        rw [show parseStrBody (f + 1) acc ('\\' :: 'f' :: (escBody l ++ '"' :: rest)) =
          parseStrBody f ('\x0c' :: acc) (escBody l ++ '"' :: rest) from by
            simp [parseStrBody, unescape1]]
        rw [ih f _ rest hfl]
        simp
      · subst h7
        rw [show (['\\', 'r'] ++ escBody l ++ '"' :: rest) =
          '\\' :: 'r' :: (escBody l ++ '"' :: rest) from by simp]
        rw [show parseStrBody (f + 1) acc ('\\' :: 'r' :: (escBody l ++ '"' :: rest)) =
          parseStrBody f ('\r' :: acc) (escBody l ++ '"' :: rest) from by
            simp [parseStrBody, unescape1]]
        rw [ih f _ rest hfl]
        simp
      · have hdiv : c.toNat / 16 < 16 := by omega
        have hmod : c.toNat % 16 < 16 := by omega
        rw [show (['\\', 'u', '0', '0', hexDigitChar (c.toNat / 16),
            hexDigitChar (c.toNat % 16)] ++ escBody l ++ '"' :: rest) =
          '\\' :: 'u' :: '0' :: '0' :: hexDigitChar (c.toNat / 16) ::
            hexDigitChar (c.toNat % 16) :: (escBody l ++ '"' :: rest) from by simp]
        have hstep : parseStrBody (f + 1) acc ('\\' :: 'u' :: '0' :: '0' ::
            hexDigitChar (c.toNat / 16) :: hexDigitChar (c.toNat % 16) ::
            (escBody l ++ '"' :: rest)) =
            parseStrBody f (c :: acc) (escBody l ++ '"' :: rest) := by
          simp only [parseStrBody]
          rw [if_pos trivial]
          rw [show unescape1 ('u' :: '0' :: '0' :: hexDigitChar (c.toNat / 16) ::
              hexDigitChar (c.toNat % 16) :: (escBody l ++ '"' :: rest)) =
            unescHex ('0' :: '0' :: hexDigitChar (c.toNat / 16) ::
              hexDigitChar (c.toNat % 16) :: (escBody l ++ '"' :: rest)) from by
              simp [unescape1]]
          rw [show unescHex ('0' :: '0' :: hexDigitChar (c.toNat / 16) ::
              hexDigitChar (c.toNat % 16) :: (escBody l ++ '"' :: rest)) =
            (match parseHexDigit '0', parseHexDigit '0',
                parseHexDigit (hexDigitChar (c.toNat / 16)),
                parseHexDigit (hexDigitChar (c.toNat % 16)) with
              | some a, some b, some c2, some d =>
                some (Char.ofNat (4096 * a + 256 * b + 16 * c2 + d),
                  escBody l ++ '"' :: rest)
              | _, _, _, _ => none) from rfl]
          rw [show parseHexDigit '0' = some 0 from rfl,
            parseHexDigit_hexDigitChar _ hdiv, parseHexDigit_hexDigitChar _ hmod]
          simp only [show (('\\' : Char) = '"') = False from by decide, if_false]
          simp only [show (4096 * 0 + 256 * 0 + 16 * (c.toNat / 16) + c.toNat % 16) =
            c.toNat from by omega, Char.ofNat_toNat]
        rw [hstep, ih f _ rest hfl]
        simp
      · rw [show ([c] ++ escBody l ++ '"' :: rest) =
          c :: (escBody l ++ '"' :: rest) from by simp]
        rw [show parseStrBody (f + 1) acc (c :: (escBody l ++ '"' :: rest)) =
          parseStrBody f (c :: acc) (escBody l ++ '"' :: rest) from by
            simp [parseStrBody, h1, h2, h8]]
        rw [ih f _ rest hfl]
        simp

/-! ## Round-trip support: shapes of rendered output (for C5) -/

theorem escBody_len (l : List Char) : l.length ≤ (escBody l).length := by
  induction l with
  | nil => simp [escBody]
  | cons c rest ih =>
    rw [show escBody (c :: rest) = escapeChar c ++ escBody rest from rfl]
    have h1 : 1 ≤ (escapeChar c).length := by
      unfold escapeChar
      split_ifs <;> simp
    simp only [List.length_append, List.length_cons]
    omega

theorem renderVal_none_iff (pretty : Bool) (d : Nat) (v : JsValue) :
    renderVal pretty d v = none ↔ v = .undefined := by
  constructor
  · intro h
    cases v with
    | undefined => rfl
    | null => simp [renderVal] at h
    | bool b => cases b <;> simp [renderVal] at h
    | num n => simp [renderVal] at h
    | str s => simp [renderVal] at h
    | arr xs =>
      rw [renderVal] at h
      split at h
      · simp at h
      · split at h <;> simp at h
    | obj fs =>
      rw [renderVal] at h
      split at h
      · simp at h
      · split at h <;> simp at h
  · intro h; subst h; rfl

theorem ws_not_digit (c : Char) (h : isWsChar c = true) : isDigitChar c = false := by
  unfold isWsChar at h
  rcases (by simpa using h : c = ' ' ∨ c = '\n' ∨ c = '\t' ∨ c = '\r') with
    h | h | h | h <;> subst h <;> decide

theorem numBoundary_ws (ws : List Char) (c : Char) (rest : List Char)
    (hws : wsOnly ws) (hc : isDigitChar c = false) : numBoundary (ws ++ c :: rest) := by
  cases ws with
  | nil =>
    intro c0 hc0
    simp at hc0
    subst hc0
    exact hc
  | cons w ws2 =>
    intro c0 hc0
    simp at hc0
    subst hc0
    exact ws_not_digit w (hws w (List.mem_cons_self w ws2))

theorem numBoundary_cons (c : Char) (rest : List Char) (hc : isDigitChar c = false) :
    numBoundary (c :: rest) := by
  intro c0 hc0
  simp at hc0
  subst hc0
  exact hc

theorem goodHead_not_ws (c : Char) (h : goodHead c) : isWsChar c = false := by
  rcases h with h | h | h | h | h | h | h | h
  · subst h; decide
  · subst h; decide
  · subst h; decide
  · subst h; decide
  · subst h; decide
  · subst h; decide
  · subst h; decide
  · cases hws : isWsChar c
    · rfl
    · exact absurd (ws_not_digit c hws) (by rw [h]; intro hc; exact Bool.noConfusion hc)

theorem goodHead_ne (c x : Char) (h : goodHead c)
    (hx : (x.toNat < 48 ∨ 57 < x.toNat) ∧ x ≠ '"' ∧ x ≠ lbraceChar ∧ x ≠ '[' ∧
      x ≠ 't' ∧ x ≠ 'f' ∧ x ≠ 'n' ∧ x ≠ '-') : ¬ c = x := by
  intro hc
  subst hc
  rcases h with h | h | h | h | h | h | h | h
  · exact hx.2.1 h
  · exact hx.2.2.1 h
  · exact hx.2.2.2.1 h
  · exact hx.2.2.2.2.1 h
  · exact hx.2.2.2.2.2.1 h
  · exact hx.2.2.2.2.2.2.1 h
  · exact hx.2.2.2.2.2.2.2 h
  · simp only [isDigitChar, decide_eq_true_eq] at h
    omega

theorem digit_ne (c x : Char) (h : isDigitChar c = true)
    (hx : x.toNat < 48 ∨ 57 < x.toNat) : ¬ c = x := by
  intro hc
  subst hc
  simp only [isDigitChar, decide_eq_true_eq] at h
  omega

theorem renderItemsJoined_none_iff (pretty : Bool) (de : Nat) (xs : List JsValue) :
    renderItemsJoined pretty de xs = none ↔ xs = [] := by
  cases xs with
  | nil => simp [renderItemsJoined]
  | cons x rest =>
    rw [renderItemsJoined]
    constructor
    · intro h
      split at h <;> simp at h
    · intro h; cases h

theorem renderFieldsJoined_none_strip (pretty : Bool) (de : Nat) :
    ∀ fs, renderFieldsJoined pretty de fs = none → stripFields fs = [] := by
  intro fs
  induction fs with
  | nil => intro h; rfl
  | cons f rest ih =>
    obtain ⟨k, v⟩ := f
    intro h
    rw [renderFieldsJoined] at h
    cases hv : renderVal pretty de v with
    | none =>
      rw [hv] at h
      replace h : renderFieldsJoined pretty de rest = none := h
      have hu : v = .undefined := (renderVal_none_iff pretty de v).mp hv
      subst hu
      rw [stripFields, if_pos (by rfl)]
      exact ih h
    | some cs =>
      rw [hv] at h
      replace h : (match renderFieldsJoined pretty de rest with
        | none => some (renderStr k ++ colonSep pretty ++ cs)
        | some more =>
          some ((renderStr k ++ colonSep pretty ++ cs) ++ entrySep pretty de ++ more)) =
          none := h
      split at h <;> exact absurd h (by simp)

theorem renderVal_head (pretty : Bool) (d : Nat) (v : JsValue) (cs : List Char)
    (h : renderVal pretty d v = some cs) : ∃ c cs2, cs = c :: cs2 ∧ goodHead c := by
  cases v with
  | undefined => simp [renderVal] at h
  | null =>
    rw [show renderVal pretty d .null = some nullChars from rfl] at h
    injection h with h; subst h
    exact ⟨'n', _, rfl, by unfold goodHead; tauto⟩
  | bool b =>
    cases b with
    | true =>
      rw [show renderVal pretty d (.bool true) = some ['t', 'r', 'u', 'e'] from rfl] at h
      injection h with h; subst h
      exact ⟨'t', _, rfl, by unfold goodHead; tauto⟩
    | false =>
      rw [show renderVal pretty d (.bool false) = some ['f', 'a', 'l', 's', 'e'] from rfl] at h
      injection h with h; subst h
      exact ⟨'f', _, rfl, by unfold goodHead; tauto⟩
  | num n =>
    rw [show renderVal pretty d (.num n) = some (renderInt n) from rfl] at h
    injection h with h; subst h
    unfold renderInt
    split_ifs with hneg
    · exact ⟨'-', _, rfl, by unfold goodHead; tauto⟩
    · obtain ⟨c, cs2, hcc⟩ : ∃ c cs2, natDigits n.toNat = c :: cs2 := by
        cases hh : natDigits n.toNat with
        | nil => exact absurd hh (natDigits_ne_nil _)
        | cons c cs2 => exact ⟨c, cs2, rfl⟩
      refine ⟨c, cs2, hcc, ?_⟩
      have : isDigitChar c = true :=
        natDigits_all_digits n.toNat c (by rw [hcc]; exact List.mem_cons_self c cs2)
      unfold goodHead
      tauto
  | str s =>
    rw [show renderVal pretty d (.str s) = some (renderStr s) from rfl] at h
    injection h with h; subst h
    exact ⟨'"', _, rfl, by unfold goodHead; tauto⟩
  | arr xs =>
    rw [renderVal] at h
    split at h
    · injection h with h; subst h
      exact ⟨'[', _, rfl, by unfold goodHead; tauto⟩
    · split at h
      · injection h with h; subst h
        exact ⟨'[', _, rfl, by unfold goodHead; tauto⟩
      · injection h with h; subst h
        exact ⟨'[', _, rfl, by unfold goodHead; tauto⟩
  | obj fs =>
    rw [renderVal] at h
    split at h
    · injection h with h; subst h
      exact ⟨lbraceChar, _, rfl, by unfold goodHead; tauto⟩
    · split at h
      · injection h with h; subst h
        exact ⟨lbraceChar, _, rfl, by unfold goodHead; tauto⟩
      · injection h with h; subst h
        exact ⟨lbraceChar, _, rfl, by unfold goodHead; tauto⟩

theorem renderItemsJoined_head (pretty : Bool) (de : Nat) (xs : List JsValue)
    (body : List Char) (h : renderItemsJoined pretty de xs = some body) :
    ∃ c cs2, body = c :: cs2 ∧ goodHead c := by
  cases xs with
  | nil => simp [renderItemsJoined] at h
  | cons x rest =>
    rw [renderItemsJoined] at h
    cases hv : renderVal pretty de x with
    | none =>
      rw [hv] at h
      replace h : (match renderItemsJoined pretty de rest with
        | none => some nullChars
        | some more => some (nullChars ++ entrySep pretty de ++ more)) = some body := h
      split at h
      · injection h with h; subst h
        exact ⟨'n', _, rfl, by unfold goodHead; tauto⟩
      · injection h with h; subst h
        exact ⟨'n', _, rfl, by unfold goodHead; tauto⟩
    | some cs =>
      rw [hv] at h
      replace h : (match renderItemsJoined pretty de rest with
        | none => some cs
        | some more => some (cs ++ entrySep pretty de ++ more)) = some body := h
      obtain ⟨c, cs2, hcc, hgood⟩ := renderVal_head pretty de x cs hv
      subst hcc
      split at h
      · injection h with h; subst h
        exact ⟨c, cs2, rfl, hgood⟩
      · injection h with h; subst h
        exact ⟨c, _, rfl, hgood⟩

theorem renderFieldsJoined_head (pretty : Bool) (de : Nat) (fs : List (String × JsValue))
    (body : List Char) (h : renderFieldsJoined pretty de fs = some body) :
    ∃ cs2, body = '"' :: cs2 := by
  induction fs with
  | nil => simp [renderFieldsJoined] at h
  | cons f rest ih =>
    obtain ⟨k, v⟩ := f
    rw [renderFieldsJoined] at h
    cases hv : renderVal pretty de v with
    | none =>
      rw [hv] at h
      exact ih h
    | some cs =>
      rw [hv] at h
      replace h : (match renderFieldsJoined pretty de rest with
        | none => some (renderStr k ++ colonSep pretty ++ cs)
        | some more =>
          some ((renderStr k ++ colonSep pretty ++ cs) ++ entrySep pretty de ++ more)) =
          some body := h
      split at h
      · injection h with h; subst h
        exact ⟨_, rfl⟩
      · injection h with h; subst h
        exact ⟨_, rfl⟩

theorem psize_pos (v : JsValue) : 1 ≤ psize v := by
  cases v <;> simp [psize]

theorem renderFieldsJoined_psize_pos (pretty : Bool) (de : Nat) :
    ∀ fs body, renderFieldsJoined pretty de fs = some body → 1 ≤ psizeFields fs := by
  intro fs
  induction fs with
  | nil => intro body h; simp [renderFieldsJoined] at h
  | cons f rest ih =>
    obtain ⟨k, v⟩ := f
    intro body h
    rw [renderFieldsJoined] at h
    cases hv : renderVal pretty de v with
    | none =>
      rw [hv] at h
      replace h : renderFieldsJoined pretty de rest = some body := h
      have hu : v = .undefined := (renderVal_none_iff pretty de v).mp hv
      subst hu
      rw [psizeFields, if_pos (by rfl)]
      exact ih body h
    | some cs =>
      have hu : ¬ v.isUndef = true := by
        intro hun
        have : v = .undefined := by cases v <;> simp [JsValue.isUndef] at hun ⊢
        subst this
        simp [renderVal] at hv
      rw [psizeFields, if_neg hu]
      omega

theorem renderItemsJoined_psize_pos (pretty : Bool) (de : Nat)
    (xs : List JsValue) (body : List Char) (h : renderItemsJoined pretty de xs = some body) :
    1 ≤ psizeItems xs := by
  cases xs with
  | nil => simp [renderItemsJoined] at h
  | cons x rest =>
    rw [psizeItems]
    have := psize_pos x
    omega

theorem parseVal_ws (fuel : Nat) (ws input : List Char) (h : wsOnly ws) :
    parseVal fuel (ws ++ input) = parseVal fuel input := by
  match fuel with
  | 0 => rfl
  | f + 1 =>
    simp only [parseVal]
    rw [skipWs_append ws input h]

theorem parseArrItems_ws (fuel : Nat) (ws input : List Char) (h : wsOnly ws) :
    parseArrItems fuel (ws ++ input) = parseArrItems fuel input := by
  match fuel with
  | 0 => rfl
  | f + 1 =>
    simp only [parseArrItems]
    rw [parseVal_ws f ws input h]

theorem string_mk_data (s : String) : String.mk s.data = s := rfl

/-- One fuel step for object entries: assuming the round-trip statements at
fuel `f`, the entry list of an object round-trips at fuel `f + 1`. -/
theorem objItems_step (pretty : Bool) (f : Nat)
    (ihV : ∀ v d cs rest, jsonSafe v = true → renderVal pretty d v = some cs →
      psize v ≤ f → numBoundary rest →
      parseVal f (cs ++ rest) = some (strip v, rest))
    (ihF : ∀ fs de body tailWs rest, safeFields fs = true →
      renderFieldsJoined pretty de fs = some body → psizeFields fs ≤ f →
      wsOnly tailWs →
      parseObjItems f (body ++ (tailWs ++ rbraceChar :: rest)) =
        some (stripFields fs, rest)) :
    ∀ fs de body tailWs rest, safeFields fs = true →
      renderFieldsJoined pretty de fs = some body → psizeFields fs ≤ f + 1 →
      wsOnly tailWs →
      parseObjItems (f + 1) (body ++ (tailWs ++ rbraceChar :: rest)) =
        some (stripFields fs, rest) := by
  intro fs
  induction fs with
  | nil => intro de body tailWs rest _ hr _ _; simp [renderFieldsJoined] at hr
  | cons fkv rest' ihfs =>
    obtain ⟨k, v⟩ := fkv
    intro de body tailWs rest hsafe hr hp hws
    rw [renderFieldsJoined] at hr
    rw [safeFields] at hsafe
    cases hv : renderVal pretty de v with
    | none =>
      rw [hv] at hr
      replace hr : renderFieldsJoined pretty de rest' = some body := hr
      have hu : v = .undefined := (renderVal_none_iff pretty de v).mp hv
      subst hu
      rw [stripFields, if_pos (by rfl)]
      rw [psizeFields, if_pos (by rfl)] at hp
      exact ihfs de body tailWs rest ((Bool.and_eq_true _ _).mp hsafe).2 hr hp hws
    | some cs =>
      rw [hv] at hr
      replace hr : (match renderFieldsJoined pretty de rest' with
        | none => some (renderStr k ++ colonSep pretty ++ cs)
        | some more =>
          some ((renderStr k ++ colonSep pretty ++ cs) ++ entrySep pretty de ++ more)) =
          some body := hr
      have hsafe_v : jsonSafe v = true := ((Bool.and_eq_true _ _).mp hsafe).1
      have hsafe' : safeFields rest' = true := ((Bool.and_eq_true _ _).mp hsafe).2
      have hvne : v.isUndef = false := by
        cases hb : v.isUndef
        · rfl
        · exfalso
          have : v = .undefined := by cases v <;> simp [JsValue.isUndef] at hb ⊢
          subst this
          simp [renderVal] at hv
      have hvneP : ¬ (v.isUndef = true) := by rw [hvne]; exact Bool.noConfusion
      rw [psizeFields, if_neg hvneP] at hp
      have hpszv : psize v ≤ f := by omega
      have hpsz' : psizeFields rest' ≤ f := by omega
      rw [show stripFields ((k, v) :: rest') = (k, strip v) :: stripFields rest' from by
        rw [stripFields, if_neg hvneP]]
      cases hrest : renderFieldsJoined pretty de rest' with
      | none =>
        rw [hrest] at hr
        replace hr : some (renderStr k ++ colonSep pretty ++ cs) = some body := hr
        injection hr with hr
        subst hr
        rw [renderFieldsJoined_none_strip pretty de rest' hrest]
        have hshape : (renderStr k ++ colonSep pretty ++ cs) ++ (tailWs ++ rbraceChar :: rest) =
            '"' :: (escBody k.data ++ '"' ::
              (colonSep pretty ++ (cs ++ (tailWs ++ rbraceChar :: rest)))) := by
          simp [renderStr]
        rw [hshape]
        simp only [parseObjItems]
        rw [if_pos trivial]
        rw [parseStrBody_escBody k.data _ [] _ (by
          have := escBody_len k.data
          simp only [List.length_append, List.length_cons]
          omega)]
        simp only [List.reverse_nil, List.nil_append]
        have hYnum : numBoundary (tailWs ++ rbraceChar :: rest) :=
          numBoundary_ws tailWs rbraceChar rest hws (by decide)
        cases hpr : pretty with
        | true =>
          rw [show colonSep true = [':', ' '] from rfl]
          rw [show (([':', ' '] : List Char) ++ (cs ++ (tailWs ++ rbraceChar :: rest))) =
            ':' :: (' ' :: (cs ++ (tailWs ++ rbraceChar :: rest))) from rfl]
          rw [skipWs_cons_not_ws ':' _ (by decide)]
          simp only [if_true]
          rw [show (' ' :: (cs ++ (tailWs ++ rbraceChar :: rest))) =
            [' '] ++ (cs ++ (tailWs ++ rbraceChar :: rest)) from rfl]
          rw [parseVal_ws f [' '] _ (by intro c hc; simp at hc; subst hc; rfl)]
          rw [ihV v de cs _ hsafe_v hv hpszv hYnum]
          simp only []
          rw [skipWs_append tailWs _ hws, skipWs_cons_not_ws rbraceChar _ (by decide)]
          simp only [if_true]
          rw [if_neg (by decide : ¬ rbraceChar = ',')]
        | false =>
          rw [show colonSep false = [':'] from rfl]
          rw [show (([':'] : List Char) ++ (cs ++ (tailWs ++ rbraceChar :: rest))) =
            ':' :: (cs ++ (tailWs ++ rbraceChar :: rest)) from rfl]
          rw [skipWs_cons_not_ws ':' _ (by decide)]
          simp only [if_true]
          rw [ihV v de cs _ hsafe_v hv hpszv hYnum]
          simp only []
          rw [skipWs_append tailWs _ hws, skipWs_cons_not_ws rbraceChar _ (by decide)]
          simp only [if_true]
          rw [if_neg (by decide : ¬ rbraceChar = ',')]
      | some more =>
        rw [hrest] at hr
        replace hr : some ((renderStr k ++ colonSep pretty ++ cs) ++
          entrySep pretty de ++ more) = some body := hr
        injection hr with hr
        subst hr
        obtain ⟨m2, hm2⟩ := renderFieldsJoined_head pretty de rest' more hrest
        have hshape : ((renderStr k ++ colonSep pretty ++ cs) ++ entrySep pretty de ++ more)
            ++ (tailWs ++ rbraceChar :: rest) =
            '"' :: (escBody k.data ++ '"' :: (colonSep pretty ++
              (cs ++ (entrySep pretty de ++ (more ++ (tailWs ++ rbraceChar :: rest)))))) := by
          simp [renderStr]
        rw [hshape]
        simp only [parseObjItems]
        rw [if_pos trivial]
        rw [parseStrBody_escBody k.data _ [] _ (by
          have := escBody_len k.data
          simp only [List.length_append, List.length_cons]
          omega)]
        simp only [List.reverse_nil, List.nil_append]
        cases hpr : pretty with
        | true =>
          have hYnum : numBoundary (entrySep true de ++
              (more ++ (tailWs ++ rbraceChar :: rest))) := by
            rw [show entrySep true de = ',' :: ('\n' :: indentChars de) from rfl]
            exact numBoundary_cons ',' _ (by decide)
          rw [show colonSep true = [':', ' '] from rfl]
          rw [show (([':', ' '] : List Char) ++ (cs ++ (entrySep true de ++
              (more ++ (tailWs ++ rbraceChar :: rest))))) =
            ':' :: (' ' :: (cs ++ (entrySep true de ++
              (more ++ (tailWs ++ rbraceChar :: rest))))) from rfl]
          rw [skipWs_cons_not_ws ':' _ (by decide)]
          simp only [if_true]
          rw [show (' ' :: (cs ++ (entrySep true de ++ (more ++ (tailWs ++ rbraceChar :: rest))))) =
            [' '] ++ (cs ++ (entrySep true de ++ (more ++ (tailWs ++ rbraceChar :: rest)))) from rfl]
          rw [parseVal_ws f [' '] _ (by intro c hc; simp at hc; subst hc; rfl)]
          rw [ihV v de cs _ hsafe_v hv hpszv hYnum]
          simp only []
          rw [show entrySep true de = ',' :: ('\n' :: indentChars de) from rfl]
          rw [show ((',' :: ('\n' :: indentChars de)) ++ (more ++ (tailWs ++ rbraceChar :: rest))) =
            ',' :: (('\n' :: indentChars de) ++ (more ++ (tailWs ++ rbraceChar :: rest))) from rfl]
          rw [skipWs_cons_not_ws ',' _ (by decide)]
          simp only [if_true]
          rw [skipWs_append _ _ (wsOnly_newline_indent de)]
          rw [show skipWs (more ++ (tailWs ++ rbraceChar :: rest)) =
              more ++ (tailWs ++ rbraceChar :: rest) from by
            rw [hm2]
            exact skipWs_cons_not_ws '"' _ (by decide)]
          rw [ihF rest' de more tailWs rest hsafe' hrest hpsz' hws]
        | false =>
          have hYnum : numBoundary (entrySep false de ++
              (more ++ (tailWs ++ rbraceChar :: rest))) := by
            rw [show entrySep false de = [','] from rfl]
            exact numBoundary_cons ',' _ (by decide)
          rw [show colonSep false = [':'] from rfl]
          rw [show (([':'] : List Char) ++ (cs ++ (entrySep false de ++
              (more ++ (tailWs ++ rbraceChar :: rest))))) =
            ':' :: (cs ++ (entrySep false de ++
              (more ++ (tailWs ++ rbraceChar :: rest)))) from rfl]
          rw [skipWs_cons_not_ws ':' _ (by decide)]
          simp only [if_true]
          rw [ihV v de cs _ hsafe_v hv hpszv hYnum]
          simp only []
          rw [show entrySep false de = [','] from rfl]
          rw [show (([','] : List Char) ++ (more ++ (tailWs ++ rbraceChar :: rest))) =
            ',' :: (more ++ (tailWs ++ rbraceChar :: rest)) from rfl]
          rw [skipWs_cons_not_ws ',' _ (by decide)]
          simp only [if_true]
          rw [show skipWs (more ++ (tailWs ++ rbraceChar :: rest)) =
              more ++ (tailWs ++ rbraceChar :: rest) from by
            rw [hm2]
            exact skipWs_cons_not_ws '"' _ (by decide)]
          rw [ihF rest' de more tailWs rest hsafe' hrest hpsz' hws]

/-- The entry separator starts with a comma, so a number before it ends
there. -/
theorem numBoundary_entrySep (pretty : Bool) (de : Nat) (l : List Char) :
    numBoundary (entrySep pretty de ++ l) := by
  cases pretty with
  | true =>
    rw [show entrySep true de = ',' :: ('\n' :: indentChars de) from rfl]
    exact numBoundary_cons ',' _ (by decide)
  | false =>
    rw [show entrySep false de = [','] from rfl]
    exact numBoundary_cons ',' _ (by decide)

/-- One fuel step for array elements: assuming the round-trip statements at
fuel `f`, the element list of an array round-trips at fuel `f + 1`. -/
theorem arrItems_step (pretty : Bool) (f : Nat)
    (ihV : ∀ v d cs rest, jsonSafe v = true → renderVal pretty d v = some cs →
      psize v ≤ f → numBoundary rest →
      parseVal f (cs ++ rest) = some (strip v, rest))
    (ihI : ∀ xs de body tailWs rest, safeItems xs = true →
      renderItemsJoined pretty de xs = some body → psizeItems xs ≤ f →
      wsOnly tailWs →
      parseArrItems f (body ++ (tailWs ++ ']' :: rest)) =
        some (stripItems xs, rest)) :
    ∀ xs de body tailWs rest, safeItems xs = true →
      renderItemsJoined pretty de xs = some body → psizeItems xs ≤ f + 1 →
      wsOnly tailWs →
      parseArrItems (f + 1) (body ++ (tailWs ++ ']' :: rest)) =
        some (stripItems xs, rest) := by
  intro xs de body tailWs rest hsafe hr hp hws
  cases xs with
  | nil => simp [renderItemsJoined] at hr
  | cons x rest' =>
    rw [renderItemsJoined] at hr
    rw [safeItems] at hsafe
    have h1 := (Bool.and_eq_true _ _).mp hsafe
    have h2 := (Bool.and_eq_true _ _).mp h1.1
    have hsafe_x : jsonSafe x = true := h2.2
    have hsafe' : safeItems rest' = true := h1.2
    have hxu : x.isUndef = false := by
      cases hb : x.isUndef
      · rfl
      · rw [hb] at h2
        exact absurd h2.1 (by decide)
    have hxuP : ¬ (x.isUndef = true) := by rw [hxu]; exact Bool.noConfusion
    cases hv : renderVal pretty de x with
    | none =>
      have hu : x = .undefined := (renderVal_none_iff pretty de x).mp hv
      subst hu
      simp [JsValue.isUndef] at hxu
    | some cs =>
      rw [hv] at hr
      replace hr : (match renderItemsJoined pretty de rest' with
        | none => some cs
        | some more => some (cs ++ entrySep pretty de ++ more)) = some body := hr
      rw [psizeItems] at hp
      have hpx : psize x ≤ f := by omega
      have hp' : psizeItems rest' ≤ f := by omega
      rw [show stripItems (x :: rest') = strip x :: stripItems rest' from by
        rw [stripItems, if_neg hxuP]]
      cases hrest : renderItemsJoined pretty de rest' with
      | none =>
        rw [hrest] at hr
        replace hr : some cs = some body := hr
        injection hr with hr
        subst hr
        have hrnil : rest' = [] := (renderItemsJoined_none_iff pretty de rest').mp hrest
        subst hrnil
        simp only [parseArrItems]
        rw [ihV x de cs _ hsafe_x hv hpx (numBoundary_ws tailWs ']' rest hws (by decide))]
        simp only []
        rw [skipWs_append tailWs _ hws, skipWs_cons_not_ws ']' _ (by decide)]
        simp only []
        rw [if_neg (by decide : ¬ ']' = ',')]
        rw [if_pos trivial]
        rfl
      | some more =>
        rw [hrest] at hr
        replace hr : some (cs ++ entrySep pretty de ++ more) = some body := hr
        injection hr with hr
        subst hr
        rw [show ((cs ++ entrySep pretty de ++ more) ++ (tailWs ++ ']' :: rest)) =
          cs ++ (entrySep pretty de ++ (more ++ (tailWs ++ ']' :: rest))) from by simp]
        simp only [parseArrItems]
        rw [ihV x de cs _ hsafe_x hv hpx (numBoundary_entrySep pretty de _)]
        simp only []
        cases hpr : pretty with
        | true =>
          rw [show entrySep true de = ',' :: ('\n' :: indentChars de) from rfl]
          rw [show ((',' :: ('\n' :: indentChars de)) ++ (more ++ (tailWs ++ ']' :: rest))) =
            ',' :: (('\n' :: indentChars de) ++ (more ++ (tailWs ++ ']' :: rest))) from rfl]
          rw [skipWs_cons_not_ws ',' _ (by decide)]
          simp only [if_true]
          rw [parseArrItems_ws f ('\n' :: indentChars de) _ (wsOnly_newline_indent de)]
          rw [ihI rest' de more tailWs rest hsafe' hrest hp' hws]
        | false =>
          rw [show entrySep false de = [','] from rfl]
          rw [show (([','] : List Char) ++ (more ++ (tailWs ++ ']' :: rest))) =
            ',' :: (more ++ (tailWs ++ ']' :: rest)) from rfl]
          rw [skipWs_cons_not_ws ',' _ (by decide)]
          simp only [if_true]
          rw [ihI rest' de more tailWs rest hsafe' hrest hp' hws]

/-- One fuel step for a single value: assuming the entry lists round-trip
at fuel `f`, a rendered value followed by a non-digit boundary round-trips
at fuel `f + 1`. -/
theorem val_step (pretty : Bool) (f : Nat)
    (ihF : ∀ fs de body tailWs rest, safeFields fs = true →
      renderFieldsJoined pretty de fs = some body → psizeFields fs ≤ f →
      wsOnly tailWs →
      parseObjItems f (body ++ (tailWs ++ rbraceChar :: rest)) =
        some (stripFields fs, rest))
    (ihI : ∀ xs de body tailWs rest, safeItems xs = true →
      renderItemsJoined pretty de xs = some body → psizeItems xs ≤ f →
      wsOnly tailWs →
      parseArrItems f (body ++ (tailWs ++ ']' :: rest)) =
        some (stripItems xs, rest)) :
    ∀ v d cs rest, jsonSafe v = true → renderVal pretty d v = some cs →
      psize v ≤ f + 1 → numBoundary rest →
      parseVal (f + 1) (cs ++ rest) = some (strip v, rest) := by
  intro v d cs rest hsafe hv hp hb
  cases v with
  | undefined => simp [renderVal] at hv
  | null =>
    replace hv : some nullChars = some cs := hv
    injection hv with hv
    subst hv
    rfl
  | bool b =>
    cases b with
    | true =>
      replace hv : some ['t', 'r', 'u', 'e'] = some cs := hv
      injection hv with hv
      subst hv
      rfl
    | false =>
      replace hv : some ['f', 'a', 'l', 's', 'e'] = some cs := hv
      injection hv with hv
      subst hv
      rfl
  | num n =>
    replace hv : some (renderInt n) = some cs := hv
    injection hv with hv
    subst hv
    obtain ⟨c0, cs0, hcc, hd⟩ : ∃ c0 cs0, renderInt n = c0 :: cs0 ∧
        (c0 = '-' ∨ isDigitChar c0 = true) := by
      rw [renderInt]
      by_cases hneg : n < 0
      · rw [if_pos hneg]
        exact ⟨'-', _, rfl, Or.inl rfl⟩
      · rw [if_neg hneg]
        cases hh : natDigits n.toNat with
        | nil => exact absurd hh (natDigits_ne_nil _)
        | cons c cs2 =>
          exact ⟨c, cs2, rfl, Or.inr (natDigits_all_digits n.toNat c
            (by rw [hh]; exact List.mem_cons_self c cs2))⟩
    have hnw : isWsChar c0 = false := by
      rcases hd with hd | hd
      · subst hd; decide
      · cases hw : isWsChar c0
        · rfl
        · rw [ws_not_digit c0 hw] at hd
          exact Bool.noConfusion hd
    have hne : ∀ x : Char, (x.toNat < 48 ∨ 57 < x.toNat) → ¬ x = '-' → ¬ c0 = x := by
      intro x hx hxm hc
      rcases hd with hd | hd
      · exact hxm (hc ▸ hd)
      · exact digit_ne c0 x hd hx hc
    simp only [parseVal]
    rw [hcc]
    rw [show ((c0 :: cs0) ++ rest) = c0 :: (cs0 ++ rest) from rfl]
    rw [skipWs_cons_not_ws c0 _ hnw]
    simp only []
    rw [if_neg (hne '"' (by decide) (by decide)),
      if_neg (hne lbraceChar (by decide) (by decide)),
      if_neg (hne '[' (by decide) (by decide)),
      if_neg (hne 't' (by decide) (by decide)),
      if_neg (hne 'f' (by decide) (by decide)),
      if_neg (hne 'n' (by decide) (by decide))]
    rw [show (c0 :: (cs0 ++ rest)) = (c0 :: cs0) ++ rest from rfl, ← hcc]
    exact parseNum_renderInt n rest hb
  | str s =>
    replace hv : some (renderStr s) = some cs := hv
    injection hv with hv
    subst hv
    simp only [parseVal]
    rw [show (renderStr s ++ rest) = '"' :: (escBody s.data ++ '"' :: rest) from by
      simp [renderStr]]
    rw [skipWs_cons_not_ws '"' _ (by decide)]
    simp only []
    rw [if_pos trivial]
    rw [parseStrBody_escBody s.data _ [] rest (by
      have := escBody_len s.data
      simp only [List.length_append, List.length_cons]
      omega)]
    simp only [List.reverse_nil, List.nil_append]
    rw [string_mk_data]
    rfl
  | arr xs =>
    replace hsafe : safeItems xs = true := hsafe
    replace hp : 1 + psizeItems xs ≤ f + 1 := hp
    have hpsz : psizeItems xs ≤ f := by omega
    rw [renderVal] at hv
    cases hrj : renderItemsJoined pretty (d + 1) xs with
    | none =>
      rw [hrj] at hv
      replace hv : some ['[', ']'] = some cs := hv
      injection hv with hv
      subst hv
      have hnil : xs = [] := (renderItemsJoined_none_iff _ _ _).mp hrj
      subst hnil
      rfl
    | some body =>
      rw [hrj] at hv
      replace hv : (if pretty then
          some ('[' :: '\n' :: indentChars (d + 1) ++ body ++ '\n' :: indentChars d ++ [']'])
        else some ('[' :: body ++ [']'])) = some cs := hv
      obtain ⟨c2, cs2, hm2, hg2⟩ := renderItemsJoined_head pretty (d + 1) xs body hrj
      subst hm2
      cases hpr : pretty with
      | true =>
        rw [hpr] at hv
        replace hv : some ('[' :: '\n' :: indentChars (d + 1) ++ (c2 :: cs2) ++
          '\n' :: indentChars d ++ [']']) = some cs := hv
        injection hv with hv
        subst hv
        rw [show (('[' :: '\n' :: indentChars (d + 1) ++ (c2 :: cs2) ++
            '\n' :: indentChars d ++ [']']) ++ rest) =
          '[' :: (('\n' :: indentChars (d + 1)) ++ ((c2 :: cs2) ++
            (('\n' :: indentChars d) ++ (']' :: rest)))) from by simp]
        simp only [parseVal]
        rw [skipWs_cons_not_ws '[' _ (by decide)]
        simp only []
        rw [if_neg (by decide : ¬ '[' = '"'), if_neg (by decide : ¬ '[' = lbraceChar),
          if_pos trivial]
        rw [skipWs_append _ _ (wsOnly_newline_indent (d + 1))]
        rw [show ((c2 :: cs2) ++ (('\n' :: indentChars d) ++ (']' :: rest))) =
          c2 :: (cs2 ++ (('\n' :: indentChars d) ++ (']' :: rest))) from rfl]
        rw [skipWs_cons_not_ws c2 _ (goodHead_not_ws c2 hg2)]
        simp only []
        rw [if_neg (goodHead_ne c2 ']' hg2 (by decide))]
        rw [show c2 :: (cs2 ++ (('\n' :: indentChars d) ++ (']' :: rest))) =
          (c2 :: cs2) ++ (('\n' :: indentChars d) ++ (']' :: rest)) from rfl]
        rw [ihI xs (d + 1) (c2 :: cs2) ('\n' :: indentChars d) rest hsafe hrj hpsz
          (wsOnly_newline_indent d)]
        rfl
      | false =>
        rw [hpr] at hv
        replace hv : some ('[' :: (c2 :: cs2) ++ [']']) = some cs := hv
        injection hv with hv
        subst hv
        rw [show (('[' :: (c2 :: cs2) ++ [']']) ++ rest) =
          '[' :: ((c2 :: cs2) ++ ([] ++ ']' :: rest)) from by simp]
        simp only [parseVal]
        rw [skipWs_cons_not_ws '[' _ (by decide)]
        simp only []
        rw [if_neg (by decide : ¬ '[' = '"'), if_neg (by decide : ¬ '[' = lbraceChar),
          if_pos trivial]
        rw [show ((c2 :: cs2) ++ ([] ++ ']' :: rest)) =
          c2 :: (cs2 ++ ([] ++ ']' :: rest)) from rfl]
        rw [skipWs_cons_not_ws c2 _ (goodHead_not_ws c2 hg2)]
        simp only []
        rw [if_neg (goodHead_ne c2 ']' hg2 (by decide))]
        rw [show c2 :: (cs2 ++ ([] ++ ']' :: rest)) =
          (c2 :: cs2) ++ ([] ++ ']' :: rest) from rfl]
        rw [ihI xs (d + 1) (c2 :: cs2) [] rest hsafe hrj hpsz wsOnly_nil]
        rfl
  | obj fs =>
    replace hsafe : safeFields fs = true := hsafe
    replace hp : 1 + psizeFields fs ≤ f + 1 := hp
    have hpsz : psizeFields fs ≤ f := by omega
    rw [renderVal] at hv
    cases hrj : renderFieldsJoined pretty (d + 1) fs with
    | none =>
      rw [hrj] at hv
      replace hv : some [lbraceChar, rbraceChar] = some cs := hv
      injection hv with hv
      subst hv
      rw [show strip (.obj fs) = .obj (stripFields fs) from rfl,
        renderFieldsJoined_none_strip pretty (d + 1) fs hrj]
      rfl
    | some body =>
      rw [hrj] at hv
      replace hv : (if pretty then
          some (lbraceChar :: '\n' :: indentChars (d + 1) ++ body ++
            '\n' :: indentChars d ++ [rbraceChar])
        else some (lbraceChar :: body ++ [rbraceChar])) = some cs := hv
      obtain ⟨cs2, hm2⟩ := renderFieldsJoined_head pretty (d + 1) fs body hrj
      subst hm2
      cases hpr : pretty with
      | true =>
        rw [hpr] at hv
        replace hv : some (lbraceChar :: '\n' :: indentChars (d + 1) ++ ('"' :: cs2) ++
          '\n' :: indentChars d ++ [rbraceChar]) = some cs := hv
        injection hv with hv
        subst hv
        rw [show ((lbraceChar :: '\n' :: indentChars (d + 1) ++ ('"' :: cs2) ++
            '\n' :: indentChars d ++ [rbraceChar]) ++ rest) =
          lbraceChar :: (('\n' :: indentChars (d + 1)) ++ (('"' :: cs2) ++
            (('\n' :: indentChars d) ++ (rbraceChar :: rest)))) from by simp]
        simp only [parseVal]
        rw [skipWs_cons_not_ws lbraceChar _ (by decide)]
        simp only []
        rw [if_neg (by decide : ¬ lbraceChar = '"'), if_pos trivial]
        rw [skipWs_append _ _ (wsOnly_newline_indent (d + 1))]
        rw [show (('"' :: cs2) ++ (('\n' :: indentChars d) ++ (rbraceChar :: rest))) =
          '"' :: (cs2 ++ (('\n' :: indentChars d) ++ (rbraceChar :: rest))) from rfl]
        rw [skipWs_cons_not_ws '"' _ (by decide)]
        simp only []
        rw [if_neg (by decide : ¬ '"' = rbraceChar)]
        rw [show '"' :: (cs2 ++ (('\n' :: indentChars d) ++ (rbraceChar :: rest))) =
          ('"' :: cs2) ++ (('\n' :: indentChars d) ++ (rbraceChar :: rest)) from rfl]
        rw [ihF fs (d + 1) ('"' :: cs2) ('\n' :: indentChars d) rest hsafe hrj hpsz
          (wsOnly_newline_indent d)]
        rfl
      | false =>
        rw [hpr] at hv
        replace hv : some (lbraceChar :: ('"' :: cs2) ++ [rbraceChar]) = some cs := hv
        injection hv with hv
        subst hv
        rw [show ((lbraceChar :: ('"' :: cs2) ++ [rbraceChar]) ++ rest) =
          lbraceChar :: (('"' :: cs2) ++ ([] ++ rbraceChar :: rest)) from by simp]
        simp only [parseVal]
        rw [skipWs_cons_not_ws lbraceChar _ (by decide)]
        simp only []
        rw [if_neg (by decide : ¬ lbraceChar = '"'), if_pos trivial]
        rw [show (('"' :: cs2) ++ ([] ++ rbraceChar :: rest)) =
          '"' :: (cs2 ++ ([] ++ rbraceChar :: rest)) from rfl]
        rw [skipWs_cons_not_ws '"' _ (by decide)]
        simp only []
        rw [if_neg (by decide : ¬ '"' = rbraceChar)]
        rw [show '"' :: (cs2 ++ ([] ++ rbraceChar :: rest)) =
          ('"' :: cs2) ++ ([] ++ rbraceChar :: rest) from rfl]
        rw [ihF fs (d + 1) ('"' :: cs2) [] rest hsafe hrj hpsz wsOnly_nil]
        rfl

/-- The three round-trip statements together, by induction on fuel: with
enough fuel, parsing a rendered value (followed by a suitable boundary)
gives back the stripped value. -/
theorem render_parse (pretty : Bool) : ∀ f : Nat,
    (∀ v d cs rest, jsonSafe v = true → renderVal pretty d v = some cs →
      psize v ≤ f → numBoundary rest →
      parseVal f (cs ++ rest) = some (strip v, rest)) ∧
    (∀ fs de body tailWs rest, safeFields fs = true →
      renderFieldsJoined pretty de fs = some body → psizeFields fs ≤ f →
      wsOnly tailWs →
      parseObjItems f (body ++ (tailWs ++ rbraceChar :: rest)) =
        some (stripFields fs, rest)) ∧
    (∀ xs de body tailWs rest, safeItems xs = true →
      renderItemsJoined pretty de xs = some body → psizeItems xs ≤ f →
      wsOnly tailWs →
      parseArrItems f (body ++ (tailWs ++ ']' :: rest)) =
        some (stripItems xs, rest)) := by
  intro f
  induction f with
  | zero =>
    refine ⟨?_, ?_, ?_⟩
    · intro v d cs rest _ _ hp _
      exact absurd hp (by have := psize_pos v; omega)
    · intro fs de body tailWs rest _ hr hp _
      exact absurd hp (by
        have := renderFieldsJoined_psize_pos pretty de fs body hr
        omega)
    · intro xs de body tailWs rest _ hr hp _
      exact absurd hp (by
        have := renderItemsJoined_psize_pos pretty de xs body hr
        omega)
  | succ f ih =>
    exact ⟨val_step pretty f ih.2.1 ih.2.2,
      objItems_step pretty f ih.1 ih.2.1,
      arrItems_step pretty f ih.1 ih.2.2⟩

/-- An object whose joined rendering is empty has only skipped entries, so
its fuel bound is zero. -/
theorem renderFieldsJoined_none_psize (pretty : Bool) (de : Nat) :
    ∀ fs, renderFieldsJoined pretty de fs = none → psizeFields fs = 0 := by
  intro fs
  induction fs with
  | nil => intro _; rfl
  | cons fkv rest ih =>
    obtain ⟨k, v⟩ := fkv
    intro h
    rw [renderFieldsJoined] at h
    cases hv : renderVal pretty de v with
    | none =>
      rw [hv] at h
      replace h : renderFieldsJoined pretty de rest = none := h
      have hu : v = .undefined := (renderVal_none_iff pretty de v).mp hv
      subst hu
      rw [psizeFields, if_pos (by rfl)]
      exact ih h
    | some cs =>
      rw [hv] at h
      replace h : (match renderFieldsJoined pretty de rest with
        | none => some (renderStr k ++ colonSep pretty ++ cs)
        | some more =>
          some ((renderStr k ++ colonSep pretty ++ cs) ++ entrySep pretty de ++ more)) =
          none := h
      split at h
      · exact Option.noConfusion h
      · exact Option.noConfusion h

/-- A quoted string literal is at least two characters long. -/
theorem renderStr_len (k : String) : 2 ≤ (renderStr k).length := by
  rw [renderStr]
  simp only [List.length_cons, List.length_append, List.length_nil]
  omega

/-- The key-value separator is nonempty. -/
theorem colonSep_len (pretty : Bool) : 1 ≤ (colonSep pretty).length := by
  cases pretty <;> simp [colonSep]

/-- The entry separator is nonempty. -/
theorem entrySep_len (pretty : Bool) (de : Nat) : 1 ≤ (entrySep pretty de).length := by
  cases pretty <;> simp [entrySep]

/-- A rendered number is nonempty. -/
theorem renderInt_len (n : Int) : 1 ≤ (renderInt n).length := by
  rw [renderInt]
  by_cases hneg : n < 0
  · rw [if_pos hneg]
    simp
  · rw [if_neg hneg]
    cases hh : natDigits n.toNat with
    | nil => exact absurd hh (natDigits_ne_nil _)
    | cons c cs2 => simp

/-- The parse-fuel bound of a value never exceeds the length of its
rendered text (bounded statement, by induction on the bound). -/
theorem psize_le_render (pretty : Bool) : ∀ n : Nat,
    (∀ v d cs, psize v ≤ n → renderVal pretty d v = some cs →
      psize v ≤ cs.length) ∧
    (∀ fs de body, psizeFields fs ≤ n →
      renderFieldsJoined pretty de fs = some body →
      psizeFields fs ≤ body.length) ∧
    (∀ xs de body, psizeItems xs ≤ n →
      renderItemsJoined pretty de xs = some body →
      psizeItems xs ≤ body.length + 1) := by
  intro n
  induction n with
  | zero =>
    refine ⟨?_, ?_, ?_⟩
    · intro v d cs hp _
      exact absurd hp (by have := psize_pos v; omega)
    · intro fs de body hp _
      omega
    · intro xs de body hp _
      omega
  | succ n ih =>
    obtain ⟨ihV, ihF, ihI⟩ := ih
    refine ⟨?_, ?_, ?_⟩
    · intro v d cs hp hv
      cases v with
      | undefined => simp [renderVal] at hv
      | null =>
        replace hv : some nullChars = some cs := hv
        injection hv with hv
        subst hv
        simp only [psize]
        decide
      | bool b =>
        cases b with
        | true =>
          replace hv : some ['t', 'r', 'u', 'e'] = some cs := hv
          injection hv with hv
          subst hv
          simp only [psize]
          decide
        | false =>
          replace hv : some ['f', 'a', 'l', 's', 'e'] = some cs := hv
          injection hv with hv
          subst hv
          simp only [psize]
          decide
      | num n2 =>
        replace hv : some (renderInt n2) = some cs := hv
        injection hv with hv
        subst hv
        simp only [psize]
        exact renderInt_len n2
      | str s =>
        replace hv : some (renderStr s) = some cs := hv
        injection hv with hv
        subst hv
        simp only [psize]
        have := renderStr_len s
        omega
      | arr xs =>
        replace hp : 1 + psizeItems xs ≤ n + 1 := hp
        rw [renderVal] at hv
        simp only [psize]
        cases hrj : renderItemsJoined pretty (d + 1) xs with
        | none =>
          rw [hrj] at hv
          replace hv : some ['[', ']'] = some cs := hv
          injection hv with hv
          subst hv
          have hnil : xs = [] := (renderItemsJoined_none_iff _ _ _).mp hrj
          subst hnil
          simp only [psizeItems]
          decide
        | some body =>
          rw [hrj] at hv
          have hbl : psizeItems xs ≤ body.length + 1 := ihI xs (d + 1) body (by omega) hrj
          replace hv : (if pretty then
              some ('[' :: '\n' :: indentChars (d + 1) ++ body ++
                '\n' :: indentChars d ++ [']'])
            else some ('[' :: body ++ [']'])) = some cs := hv
          cases hpr : pretty with
          | true =>
            rw [hpr] at hv
            replace hv : some ('[' :: '\n' :: indentChars (d + 1) ++ body ++
              '\n' :: indentChars d ++ [']']) = some cs := hv
            injection hv with hv
            subst hv
            simp only [List.length_cons, List.length_append, List.length_nil]
            omega
          | false =>
            rw [hpr] at hv
            replace hv : some ('[' :: body ++ [']']) = some cs := hv
            injection hv with hv
            subst hv
            simp only [List.length_cons, List.length_append, List.length_nil]
            omega
      | obj fs =>
        replace hp : 1 + psizeFields fs ≤ n + 1 := hp
        rw [renderVal] at hv
        simp only [psize]
        cases hrj : renderFieldsJoined pretty (d + 1) fs with
        | none =>
          rw [hrj] at hv
          replace hv : some [lbraceChar, rbraceChar] = some cs := hv
          injection hv with hv
          subst hv
          rw [renderFieldsJoined_none_psize pretty (d + 1) fs hrj]
          decide
        | some body =>
          rw [hrj] at hv
          have hbl : psizeFields fs ≤ body.length := ihF fs (d + 1) body (by omega) hrj
          replace hv : (if pretty then
              some (lbraceChar :: '\n' :: indentChars (d + 1) ++ body ++
                '\n' :: indentChars d ++ [rbraceChar])
            else some (lbraceChar :: body ++ [rbraceChar])) = some cs := hv
          cases hpr : pretty with
          | true =>
            rw [hpr] at hv
            replace hv : some (lbraceChar :: '\n' :: indentChars (d + 1) ++ body ++
              '\n' :: indentChars d ++ [rbraceChar]) = some cs := hv
            injection hv with hv
            subst hv
            simp only [List.length_cons, List.length_append, List.length_nil]
            omega
          | false =>
            rw [hpr] at hv
            replace hv : some (lbraceChar :: body ++ [rbraceChar]) = some cs := hv
            injection hv with hv
            subst hv
            simp only [List.length_cons, List.length_append, List.length_nil]
            omega
    · intro fs
      induction fs with
      | nil => intro de body _ hr; simp [renderFieldsJoined] at hr
      | cons fkv rest' ihfs =>
        obtain ⟨k, v⟩ := fkv
        intro de body hp hr
        rw [renderFieldsJoined] at hr
        cases hv : renderVal pretty de v with
        | none =>
          rw [hv] at hr
          replace hr : renderFieldsJoined pretty de rest' = some body := hr
          have hu : v = .undefined := (renderVal_none_iff pretty de v).mp hv
          subst hu
          rw [psizeFields, if_pos (by rfl)] at hp ⊢
          exact ihfs de body hp hr
        | some cs =>
          rw [hv] at hr
          replace hr : (match renderFieldsJoined pretty de rest' with
            | none => some (renderStr k ++ colonSep pretty ++ cs)
            | some more =>
              some ((renderStr k ++ colonSep pretty ++ cs) ++
                entrySep pretty de ++ more)) = some body := hr
          have hvne : ¬ (v.isUndef = true) := by
            intro hb2
            have : v = .undefined := by cases v <;> simp [JsValue.isUndef] at hb2 ⊢
            subst this
            simp [renderVal] at hv
          rw [psizeFields, if_neg hvne] at hp ⊢
          have hcs : psize v ≤ cs.length := ihV v de cs (by omega) hv
          have hk := renderStr_len k
          have hcol := colonSep_len pretty
          cases hrest : renderFieldsJoined pretty de rest' with
          | none =>
            rw [hrest] at hr
            replace hr : some (renderStr k ++ colonSep pretty ++ cs) = some body := hr
            injection hr with hr
            subst hr
            have h0 : psizeFields rest' = 0 :=
              renderFieldsJoined_none_psize pretty de rest' hrest
            simp only [List.length_append]
            omega
          | some more =>
            rw [hrest] at hr
            replace hr : some ((renderStr k ++ colonSep pretty ++ cs) ++
              entrySep pretty de ++ more) = some body := hr
            injection hr with hr
            subst hr
            have h2 : psizeFields rest' ≤ more.length :=
              ihfs de more (by omega) hrest
            have hsep := entrySep_len pretty de
            simp only [List.length_append]
            omega
    · intro xs de body hp hr
      cases xs with
      | nil => simp [renderItemsJoined] at hr
      | cons x rest' =>
        rw [renderItemsJoined] at hr
        rw [psizeItems] at hp ⊢
        cases hv : renderVal pretty de x with
        | none =>
          rw [hv] at hr
          replace hr : (match renderItemsJoined pretty de rest' with
            | none => some nullChars
            | some more =>
              some (nullChars ++ entrySep pretty de ++ more)) = some body := hr
          have hu : x = .undefined := (renderVal_none_iff pretty de x).mp hv
          subst hu
          have hx1 : psize JsValue.undefined = 1 := by simp [psize]
          cases hrest : renderItemsJoined pretty de rest' with
          | none =>
            rw [hrest] at hr
            replace hr : some nullChars = some body := hr
            injection hr with hr
            subst hr
            have hnil : rest' = [] := (renderItemsJoined_none_iff _ _ _).mp hrest
            subst hnil
            simp only [psizeItems]
            rw [hx1]
            decide
          | some more =>
            rw [hrest] at hr
            replace hr : some (nullChars ++ entrySep pretty de ++ more) = some body := hr
            injection hr with hr
            subst hr
            have h2 : psizeItems rest' ≤ more.length + 1 :=
              ihI rest' de more (by omega) hrest
            have hsep := entrySep_len pretty de
            simp only [List.length_append]
            rw [hx1]
            have hnl : nullChars.length = 4 := by decide
            omega
        | some cs =>
          rw [hv] at hr
          replace hr : (match renderItemsJoined pretty de rest' with
            | none => some cs
            | some more =>
              some (cs ++ entrySep pretty de ++ more)) = some body := hr
          have hcs : psize x ≤ cs.length := ihV x de cs (by omega) hv
          cases hrest : renderItemsJoined pretty de rest' with
          | none =>
            rw [hrest] at hr
            replace hr : some cs = some body := hr
            injection hr with hr
            subst hr
            have hnil : rest' = [] := (renderItemsJoined_none_iff _ _ _).mp hrest
            subst hnil
            simp only [psizeItems]
            have hpx := psize_pos x
            omega
          | some more =>
            rw [hrest] at hr
            replace hr : some (cs ++ entrySep pretty de ++ more) = some body := hr
            injection hr with hr
            subst hr
            have h2 : psizeItems rest' ≤ more.length + 1 :=
              ihI rest' de more (by omega) hrest
            have hsep := entrySep_len pretty de
            simp only [List.length_append]
            omega

/-- `strip` keeps `typeof` (it keeps every constructor). -/
theorem typeof_strip (v : JsValue) : (strip v).typeof = v.typeof := by
  cases v <;> rfl

/-- `strip` keeps truthiness. -/
theorem truthy_strip (v : JsValue) : (strip v).truthy = v.truthy := by
  cases v <;> rfl

/-- `strip` keeps `undefined`-ness. -/
theorem isUndef_strip (v : JsValue) : (strip v).isUndef = v.isUndef := by
  cases v <;> rfl

/-- `strip` keeps strict string comparison. -/
theorem isStr_strip (v : JsValue) (s : String) : isStr (strip v) s = isStr v s := by
  cases v <;> rfl

/-- `strip` keeps the non-empty-string test. -/
theorem nonEmptyStr_strip (v : JsValue) : nonEmptyStr (strip v) = nonEmptyStr v := by
  cases v <;> rfl

/-- `strip` keeps enum membership. -/
theorem isOneOf_strip (v : JsValue) (ss : List String) :
    isOneOf (strip v) ss = isOneOf v ss := by
  cases v <;> rfl

/-- A key that is bound nowhere reads as `undefined`. -/
theorem objGet_not_mem : ∀ (fs : List (String × JsValue)) (k : String),
    k ∉ fs.map Prod.fst → objGet fs k = .undefined := by
  intro fs
  induction fs with
  | nil => intro k _; rfl
  | cons f rest ih =>
    obtain ⟨k1, v1⟩ := f
    intro k hk
    rw [List.map_cons, List.mem_cons] at hk
    push_neg at hk
    rw [objGet_cons_ne k1 v1 rest k hk.1]
    exact ih k hk.2

/-- `stripFields` introduces no new keys. -/
theorem stripFields_keys : ∀ (fs : List (String × JsValue)) (k : String),
    k ∈ (stripFields fs).map Prod.fst → k ∈ fs.map Prod.fst := by
  intro fs
  induction fs with
  | nil => intro k h; exact absurd h (by simp [stripFields])
  | cons f rest ih =>
    obtain ⟨k1, v1⟩ := f
    intro k h
    by_cases hu : v1.isUndef = true
    · rw [show stripFields ((k1, v1) :: rest) = stripFields rest from by
        rw [stripFields, if_pos hu]] at h
      exact List.mem_cons_of_mem k1 (ih k h)
    · rw [show stripFields ((k1, v1) :: rest) = (k1, strip v1) :: stripFields rest from by
        rw [stripFields, if_neg hu]] at h
      rw [List.map_cons, List.mem_cons] at h
      rcases h with h | h
      · exact List.mem_cons.mpr (Or.inl h)
      · exact List.mem_cons_of_mem k1 (ih k h)

/-- On an object with pairwise distinct keys, reading after `stripFields`
is `strip` of the read: a dropped entry (value `undefined`) reads as
`undefined` either way. -/
theorem objGet_stripFields : ∀ (fs : List (String × JsValue)),
    (fs.map Prod.fst).Nodup → ∀ k,
    objGet (stripFields fs) k = strip (objGet fs k) := by
  intro fs
  induction fs with
  | nil => intro _ k; rfl
  | cons f rest ih =>
    obtain ⟨k1, v1⟩ := f
    intro hnd k
    rw [List.map_cons, List.nodup_cons] at hnd
    by_cases hk : k = k1
    · subst hk
      by_cases hu : v1.isUndef = true
      · have hv1 : v1 = .undefined := by
          cases v1 <;> simp [JsValue.isUndef] at hu ⊢
        subst hv1
        rw [show stripFields ((k, JsValue.undefined) :: rest) = stripFields rest from by
          rw [stripFields, if_pos (by rfl)]]
        rw [objGet_cons_self]
        rw [objGet_not_mem (stripFields rest) k
          (fun hm => hnd.1 (stripFields_keys rest k hm))]
        rfl
      · rw [show stripFields ((k, v1) :: rest) = (k, strip v1) :: stripFields rest from by
          rw [stripFields, if_neg hu]]
        rw [objGet_cons_self, objGet_cons_self]
    · by_cases hu : v1.isUndef = true
      · have hv1 : v1 = .undefined := by
          cases v1 <;> simp [JsValue.isUndef] at hu ⊢
        subst hv1
        rw [show stripFields ((k1, JsValue.undefined) :: rest) = stripFields rest from by
          rw [stripFields, if_pos (by rfl)]]
        rw [objGet_cons_ne k1 _ rest k hk]
        exact ih hnd.2 k
      · rw [show stripFields ((k1, v1) :: rest) = (k1, strip v1) :: stripFields rest from by
          rw [stripFields, if_neg hu]]
        rw [objGet_cons_ne k1 _ _ k hk, objGet_cons_ne k1 _ _ k hk]
        exact ih hnd.2 k

/-- Every value read from a key-well-formed object is key-well-formed. -/
theorem wfKeys_objGet : ∀ (fs : List (String × JsValue)) (k : String),
    wfFields fs = true → wfKeys (objGet fs k) = true := by
  intro fs
  induction fs with
  | nil => intro k _; rfl
  | cons f rest ih =>
    obtain ⟨k1, v1⟩ := f
    intro k h
    rw [wfFields] at h
    have h1 := (Bool.and_eq_true _ _).mp h
    by_cases hk : k = k1
    · subst hk; rw [objGet_cons_self]; exact h1.1
    · rw [objGet_cons_ne k1 v1 rest k hk]; exact ih k h1.2

/-- Every value read from a JSON-safe object is JSON-safe. -/
theorem jsonSafe_objGet : ∀ (fs : List (String × JsValue)) (k : String),
    safeFields fs = true → jsonSafe (objGet fs k) = true := by
  intro fs
  induction fs with
  | nil => intro k _; rfl
  | cons f rest ih =>
    obtain ⟨k1, v1⟩ := f
    intro k h
    rw [safeFields] at h
    have h1 := (Bool.and_eq_true _ _).mp h
    by_cases hk : k = k1
    · subst hk; rw [objGet_cons_self]; exact h1.1
    · rw [objGet_cons_ne k1 v1 rest k hk]; exact ih k h1.2

/-- The version check only looks at a strict string comparison, which
`strip` keeps. -/
theorem versionCheckErrs_strip (v : JsValue) :
    versionCheckErrs (strip v) = versionCheckErrs v := by
  simp only [versionCheckErrs, isStr_strip]

/-- The task-id check only looks at the non-empty-string test. -/
theorem taskIdCheckErrs_strip (v : JsValue) :
    taskIdCheckErrs (strip v) = taskIdCheckErrs v := by
  simp only [taskIdCheckErrs, nonEmptyStr_strip]

/-- The sender section on an object reduces to the agent-id check. -/
theorem senderErrs_obj (gs : List (String × JsValue)) :
    senderErrs (.obj gs) = (if nonEmptyStr (objGet gs "agent_id") then []
      else [(⟨"sender.agent_id", "Required string"⟩ : IAPValidationError)]) := by
  simp only [senderErrs]
  rw [if_neg (by simp [JsValue.truthy, JsValue.typeof])]
  rfl

/-- The task section on an object reduces to the intent check. -/
theorem taskErrs_obj (gs : List (String × JsValue)) :
    taskErrs (.obj gs) = (if nonEmptyStr (objGet gs "intent") then []
      else [(⟨"task.intent", "Required string"⟩ : IAPValidationError)]) := by
  simp only [taskErrs]
  rw [if_neg (by simp [JsValue.truthy, JsValue.typeof])]
  rfl

/-- The sender section is unchanged by `strip` on a key-well-formed value. -/
theorem senderErrs_strip (s : JsValue) (h : wfKeys s = true) :
    senderErrs (strip s) = senderErrs s := by
  cases s with
  | obj gs =>
    replace h : (decide ((gs.map Prod.fst).Nodup) && wfFields gs) = true := h
    have hnd : (gs.map Prod.fst).Nodup := by
      have := ((Bool.and_eq_true _ _).mp h).1
      simpa using this
    rw [show strip (.obj gs) = .obj (stripFields gs) from rfl]
    rw [senderErrs_obj, senderErrs_obj, objGet_stripFields gs hnd "agent_id",
      nonEmptyStr_strip]
  | undefined => rfl
  | null => rfl
  | bool b => rfl
  | num n => rfl
  | str t => rfl
  | arr xs => rfl

/-- The task section is unchanged by `strip` on a key-well-formed value. -/
theorem taskErrs_strip (t : JsValue) (h : wfKeys t = true) :
    taskErrs (strip t) = taskErrs t := by
  cases t with
  | obj gs =>
    replace h : (decide ((gs.map Prod.fst).Nodup) && wfFields gs) = true := h
    have hnd : (gs.map Prod.fst).Nodup := by
      have := ((Bool.and_eq_true _ _).mp h).1
      simpa using this
    rw [show strip (.obj gs) = .obj (stripFields gs) from rfl]
    rw [taskErrs_obj, taskErrs_obj, objGet_stripFields gs hnd "intent",
      nonEmptyStr_strip]
  | undefined => rfl
  | null => rfl
  | bool b => rfl
  | num n => rfl
  | str s => rfl
  | arr xs => rfl

/-- The delivery section is unchanged by `strip` on a key-well-formed value. -/
theorem deliveryErrs_strip (d : JsValue) (h : wfKeys d = true) :
    deliveryErrs (strip d) = deliveryErrs d := by
  cases d with
  | obj gs =>
    replace h : (decide ((gs.map Prod.fst).Nodup) && wfFields gs) = true := h
    have hnd : (gs.map Prod.fst).Nodup := by
      have := ((Bool.and_eq_true _ _).mp h).1
      simpa using this
    rw [show strip (.obj gs) = .obj (stripFields gs) from rfl]
    rw [deliveryErrs_obj, deliveryErrs_obj]
    rw [objGet_stripFields gs hnd "method", objGet_stripFields gs hnd "webhook",
      objGet_stripFields gs hnd "email"]
    rw [isOneOf_strip, isStr_strip, isStr_strip, truthy_strip, truthy_strip]
  | undefined => rfl
  | null => rfl
  | bool b => rfl
  | num n => rfl
  | str s => rfl
  | arr xs => rfl

/-- The output section is unchanged by `strip` on a key-well-formed value. -/
theorem outputErrs_strip (o : JsValue) (h : wfKeys o = true) :
    outputErrs (strip o) = outputErrs o := by
  cases o with
  | obj gs =>
    replace h : (decide ((gs.map Prod.fst).Nodup) && wfFields gs) = true := h
    have hnd : (gs.map Prod.fst).Nodup := by
      have := ((Bool.and_eq_true _ _).mp h).1
      simpa using this
    rw [show strip (.obj gs) = .obj (stripFields gs) from rfl]
    rw [outputErrs_obj, outputErrs_obj]
    rw [objGet_stripFields gs hnd "format", isOneOf_strip]
  | undefined => rfl
  | null => rfl
  | bool b => rfl
  | num n => rfl
  | str s => rfl
  | arr xs => rfl

/-- The on-failure section is unchanged by `strip` on a key-well-formed
value. -/
theorem onFailureErrs_strip (v : JsValue) (h : wfKeys v = true) :
    onFailureErrs (strip v) = onFailureErrs v := by
  cases v with
  | obj gs =>
    replace h : (decide ((gs.map Prod.fst).Nodup) && wfFields gs) = true := h
    have hnd : (gs.map Prod.fst).Nodup := by
      have := ((Bool.and_eq_true _ _).mp h).1
      simpa using this
    rw [show strip (.obj gs) = .obj (stripFields gs) from rfl]
    rw [onFailureErrs_obj, onFailureErrs_obj]
    rw [objGet_stripFields gs hnd "action", isOneOf_strip]
  | undefined => rfl
  | null => rfl
  | bool b => rfl
  | num n => rfl
  | str s => rfl
  | arr xs => rfl

/-- On a key-well-formed object, `validate` cannot tell a document from its
JSON round-trip image. -/
theorem validate_strip (fs : List (String × JsValue)) (h : wfKeys (.obj fs) = true) :
    validate (strip (.obj fs)) = validate (.obj fs) := by
  replace h : (decide ((fs.map Prod.fst).Nodup) && wfFields fs) = true := h
  have hnd : (fs.map Prod.fst).Nodup := by
    have := ((Bool.and_eq_true _ _).mp h).1
    simpa using this
  have hwf : wfFields fs = true := ((Bool.and_eq_true _ _).mp h).2
  rw [show strip (.obj fs) = .obj (stripFields fs) from rfl]
  rw [validate_obj, validate_obj]
  simp only [objGet_stripFields fs hnd, versionCheckErrs_strip, taskIdCheckErrs_strip,
    senderErrs_strip _ (wfKeys_objGet fs "sender" hwf),
    taskErrs_strip _ (wfKeys_objGet fs "task" hwf),
    deliveryErrs_strip _ (wfKeys_objGet fs "delivery" hwf),
    outputErrs_strip _ (wfKeys_objGet fs "output" hwf),
    onFailureErrs_strip _ (wfKeys_objGet fs "on_failure" hwf)]

/-- `stripItems` keeps the array length (elements are rewritten, never
dropped). -/
theorem stripItems_length : ∀ xs : List JsValue, (stripItems xs).length = xs.length := by
  intro xs
  induction xs with
  | nil => rfl
  | cons x rest ih =>
    rw [show stripItems (x :: rest) =
      (if x.isUndef then .null else strip x) :: stripItems rest from by rw [stripItems]]
    rw [List.length_cons, List.length_cons, ih]

/-- One observation cannot tell a value from its `strip`. -/
theorem observe_strip (v : JsValue) : observe (strip v) = observe v := by
  cases v with
  | arr xs =>
    rw [show strip (.arr xs) = .arr (stripItems xs) from rfl]
    rw [show observe (.arr (stripItems xs)) = .arrNode (stripItems xs).length from rfl]
    rw [stripItems_length]
    rfl
  | undefined => rfl
  | null => rfl
  | bool b => rfl
  | num n => rfl
  | str s => rfl
  | obj fs => rfl

/-- Indexing after `stripItems` on a JSON-safe element list is `strip` of
the indexing (out-of-range reads give `undefined`, which `strip` keeps). -/
theorem stripItems_getD : ∀ (xs : List JsValue) (i : Nat), safeItems xs = true →
    (stripItems xs).getD i .undefined = strip (xs.getD i .undefined) := by
  intro xs
  induction xs with
  | nil => intro i _; cases i <;> rfl
  | cons x rest ih =>
    intro i hs
    rw [safeItems] at hs
    have h1 := (Bool.and_eq_true _ _).mp hs
    have h2 := (Bool.and_eq_true _ _).mp h1.1
    have hxu : x.isUndef = false := by simpa using h2.1
    rw [show stripItems (x :: rest) =
      (if x.isUndef then .null else strip x) :: stripItems rest from by rw [stripItems]]
    rw [hxu]
    cases i with
    | zero => rfl
    | succ i2 =>
      rw [List.getD_cons_succ, List.getD_cons_succ]
      exact ih i2 h1.2

/-- Every element read from a JSON-safe array is JSON-safe. -/
theorem jsonSafe_getD : ∀ (xs : List JsValue) (i : Nat), safeItems xs = true →
    jsonSafe (xs.getD i .undefined) = true := by
  intro xs
  induction xs with
  | nil => intro i _; cases i <;> rfl
  | cons x rest ih =>
    intro i hs
    rw [safeItems] at hs
    have h1 := (Bool.and_eq_true _ _).mp hs
    have h2 := (Bool.and_eq_true _ _).mp h1.1
    cases i with
    | zero => exact h2.2
    | succ i2 =>
      rw [List.getD_cons_succ]
      exact ih i2 h1.2

/-- Every element read from a key-well-formed array is key-well-formed. -/
theorem wfKeys_getD : ∀ (xs : List JsValue) (i : Nat), wfItems xs = true →
    wfKeys (xs.getD i .undefined) = true := by
  intro xs
  induction xs with
  | nil => intro i _; cases i <;> rfl
  | cons x rest ih =>
    intro i hs
    rw [wfItems] at hs
    have h1 := (Bool.and_eq_true _ _).mp hs
    cases i with
    | zero => exact h1.1
    | succ i2 =>
      rw [List.getD_cons_succ]
      exact ih i2 h1.2

/-- The empty path reads the value itself. -/
theorem pathGet_nil (v : JsValue) : pathGet v [] = v := by
  cases v <;> rfl

/-- Under every path, a key-well-formed JSON-safe value and its `strip`
show the same observation. -/
theorem strip_pathGet : ∀ (p : List PathStep) (v : JsValue), jsonSafe v = true →
    wfKeys v = true → observe (pathGet (strip v) p) = observe (pathGet v p) := by
  intro p
  induction p with
  | nil =>
    intro v _ _
    rw [pathGet_nil, pathGet_nil]
    exact observe_strip v
  | cons st p ih =>
    intro v hsafe hwf
    cases st with
    | key k =>
      cases v with
      | obj fs =>
        replace hsafe : safeFields fs = true := hsafe
        replace hwf : (decide ((fs.map Prod.fst).Nodup) && wfFields fs) = true := hwf
        have hnd : (fs.map Prod.fst).Nodup := by
          have := ((Bool.and_eq_true _ _).mp hwf).1
          simpa using this
        have hwff : wfFields fs = true := ((Bool.and_eq_true _ _).mp hwf).2
        rw [show strip (.obj fs) = .obj (stripFields fs) from rfl]
        rw [show pathGet (.obj (stripFields fs)) (.key k :: p) =
          pathGet (objGet (stripFields fs) k) p from rfl]
        rw [show pathGet (.obj fs) (.key k :: p) = pathGet (objGet fs k) p from rfl]
        rw [objGet_stripFields fs hnd k]
        exact ih (objGet fs k) (jsonSafe_objGet fs k hsafe) (wfKeys_objGet fs k hwff)
      | undefined => rfl
      | null => rfl
      | bool b => rfl
      | num n => rfl
      | str s => rfl
      | arr xs => rfl
    | idx i =>
      cases v with
      | arr xs =>
        replace hsafe : safeItems xs = true := hsafe
        replace hwf : wfItems xs = true := hwf
        rw [show strip (.arr xs) = .arr (stripItems xs) from rfl]
        rw [show pathGet (.arr (stripItems xs)) (.idx i :: p) =
          pathGet ((stripItems xs).getD i .undefined) p from rfl]
        rw [show pathGet (.arr xs) (.idx i :: p) =
          pathGet (xs.getD i .undefined) p from rfl]
        rw [stripItems_getD xs i hsafe]
        exact ih (xs.getD i .undefined) (jsonSafe_getD xs i hsafe) (wfKeys_getD xs i hwf)
      | undefined => rfl
      | null => rfl
      | bool b => rfl
      | num n => rfl
      | str s => rfl
      | obj fs => rfl

/-- `JSON.parse` of `JSON.stringify` on a JSON-safe value gives the
stripped value back, in either serialization mode. -/
theorem jsonDecode_toJSON (pretty : Bool) (v : JsValue) (s : String)
    (hsafe : jsonSafe v = true) (hs : toJSON v pretty = some s) :
    jsonDecode s = some (strip v) := by
  rw [toJSON] at hs
  cases hv : renderVal pretty 0 v with
  | none =>
    rw [hv] at hs
    exact Option.noConfusion hs
  | some cs =>
    rw [hv] at hs
    replace hs : some (String.mk cs) = some s := hs
    injection hs with hs
    subst hs
    rw [jsonDecode]
    rw [show (String.mk cs).data = cs from rfl]
    have hpsz : psize v ≤ cs.length := (psize_le_render pretty (psize v)).1 v 0 cs le_rfl hv
    have h := (render_parse pretty (cs.length + 1)).1 v 0 cs [] hsafe hv (by omega)
      (by intro c hc; simp at hc)
    rw [List.append_nil] at h
    rw [h]
    rfl

/-- Only an object document can pass `validate` without errors. -/
theorem validate_ok_obj (d : JsValue) (h : validate d = .ok []) :
    ∃ fs, d = .obj fs := by
  cases d with
  | obj fs => exact ⟨fs, rfl⟩
  | undefined =>
    replace h : (Except.ok [(⟨"", "Task must be an object"⟩ : IAPValidationError)] :
      Except Unit (List IAPValidationError)) = .ok [] := h
    injection h with h
    exact absurd h (by simp)
  | null =>
    replace h : (Except.ok [(⟨"", "Task must be an object"⟩ : IAPValidationError)] :
      Except Unit (List IAPValidationError)) = .ok [] := h
    injection h with h
    exact absurd h (by simp)
  | bool b =>
    unfold validate at h
    rw [if_pos (Or.inr (by rw [show (JsValue.bool b).typeof = "boolean" from rfl]; decide))] at h
    injection h with h
    exact absurd h (by simp)
  | num n =>
    unfold validate at h
    rw [if_pos (Or.inr (by rw [show (JsValue.num n).typeof = "number" from rfl]; decide))] at h
    injection h with h
    exact absurd h (by simp)
  | str s =>
    unfold validate at h
    rw [if_pos (Or.inr (by rw [show (JsValue.str s).typeof = "string" from rfl]; decide))] at h
    injection h with h
    exact absurd h (by simp)
  | arr xs =>
    replace h : (Except.ok [(⟨"iap_version", "Must be \"0.2\""⟩ : IAPValidationError),
      ⟨"task_id", "Required string"⟩, ⟨"sender", "Required object"⟩,
      ⟨"task", "Required object"⟩] : Except Unit (List IAPValidationError)) = .ok [] := h
    injection h with h
    exact absurd h (by simp)

/-- C5 (amended): for a conformant document (`validate` returns no errors)
whose objects have pairwise distinct keys and whose arrays contain no
`undefined` element, parsing the serialized form succeeds and returns the
document's JSON image `strip d`, which is field-wise (observationally)
equal to `d` — in both pretty and compact modes.  The original claim's
unqualified field-wise equality fails on conformant documents carrying an
`undefined` array element (see the counterexample). -/
theorem c5_round_trip (d : JsValue) (pretty : Bool) (s : String)
    (hvalid : validate d = .ok []) (hwf : wfKeys d = true)
    (hsafe : jsonSafe d = true) (hs : toJSON d pretty = some s) :
    parse s = .ok (strip d) ∧ fieldwiseEq (strip d) d := by
  obtain ⟨fs, rfl⟩ := validate_ok_obj d hvalid
  refine ⟨?_, ?_⟩
  · rw [parse]
    rw [jsonDecode_toJSON pretty _ s hsafe hs]
    simp only []
    rw [validate_strip fs hwf, hvalid]
    simp only []
    rw [if_neg (by decide : ¬ ([] : List IAPValidationError).length > 0)]
  · intro p
    exact strip_pathGet p (.obj fs) hsafe hwf

set_option maxRecDepth 10000 in
/-- C5 counterexample: a conformant document (zero validation errors) with
an extra field holding `[undefined]` round-trips to a document that is not
field-wise equal to it — `JSON.stringify` writes the element as `null`, so
reading `extra[0]` gives `null` after the round trip but `undefined`
before. -/
theorem c5_counterexample :
    validate (JsValue.obj [("iap_version", .str "0.2"), ("task_id", .str "t"),
      ("sender", .obj [("agent_id", .str "a")]), ("task", .obj [("intent", .str "x")]),
      ("extra", .arr [.undefined])]) = .ok [] ∧
    (∃ d2, parse ((toJSON (JsValue.obj [("iap_version", .str "0.2"), ("task_id", .str "t"),
        ("sender", .obj [("agent_id", .str "a")]), ("task", .obj [("intent", .str "x")]),
        ("extra", .arr [.undefined])]) false).getD "") = .ok d2 ∧
      ¬ fieldwiseEq d2 (JsValue.obj [("iap_version", .str "0.2"), ("task_id", .str "t"),
        ("sender", .obj [("agent_id", .str "a")]), ("task", .obj [("intent", .str "x")]),
        ("extra", .arr [.undefined])])) := by
  refine ⟨by rfl, ⟨strip (JsValue.obj [("iap_version", .str "0.2"), ("task_id", .str "t"),
    ("sender", .obj [("agent_id", .str "a")]), ("task", .obj [("intent", .str "x")]),
    ("extra", .arr [.undefined])]), by rfl, ?_⟩⟩
  intro hfe
  have h := hfe [.key "extra", .idx 0]
  replace h : JsObs.prim .null = JsObs.prim .undefined := h
  injection h with h
  exact JsValue.noConfusion h

set_option maxRecDepth 10000 in
/-- C5 witness: the round-trip theorem applied to a concrete minimal
conformant document in compact mode. -/
theorem c5_witness :
    parse ("\x7b\"iap_version\":\"0.2\",\"task_id\":\"t\",\"sender\":\x7b\"agent_id\":\"a\"\x7d,\"task\":\x7b\"intent\":\"x\"\x7d\x7d") =
      .ok (strip (JsValue.obj [("iap_version", .str "0.2"), ("task_id", .str "t"),
        ("sender", .obj [("agent_id", .str "a")]), ("task", .obj [("intent", .str "x")])])) ∧
    fieldwiseEq (strip (JsValue.obj [("iap_version", .str "0.2"), ("task_id", .str "t"),
        ("sender", .obj [("agent_id", .str "a")]), ("task", .obj [("intent", .str "x")])]))
      (JsValue.obj [("iap_version", .str "0.2"), ("task_id", .str "t"),
        ("sender", .obj [("agent_id", .str "a")]), ("task", .obj [("intent", .str "x")])]) :=
  c5_round_trip (JsValue.obj [("iap_version", .str "0.2"), ("task_id", .str "t"),
      ("sender", .obj [("agent_id", .str "a")]), ("task", .obj [("intent", .str "x")])])
    false
    ("\x7b\"iap_version\":\"0.2\",\"task_id\":\"t\",\"sender\":\x7b\"agent_id\":\"a\"\x7d,\"task\":\x7b\"intent\":\"x\"\x7d\x7d")
    (by rfl) (by rfl) (by rfl) (by rfl)
